import Mathlib

/-!
Verification of the linuxdeployqt-python deployment tool.

This file gives a shallow embedding of the decision logic of the tool's
modules and proves (or refutes) the specification claims about them:

* `src/tools/exclude_libs.py`      — library exclude / bundle decisions
* `src/tools/appdir_paths.py`      — AppDir destination layout
* `src/tools/qt_deployer.py`       — RPATH construction and the final audit
* `src/tools/ldd_dependency_collector.py` — dependency resolution/closure
* `src/tools/patch_gnustack.py`    — GNU_STACK executable-stack patching

Pure decision logic is translated function-for-function; file-system and
subprocess effects (ldd invocations, patchelf calls, directory walks) are
abstracted into explicit inputs (dependency maps, rpath strings, byte lists).
-/

/-! ## String helpers mirroring the Python primitives used by the sources -/

/-- Substring occurrence test on character lists: `pat` occurs somewhere in
the list.  This models Python's `pat in s` operator. -/
def listInfixOf (pat : List Char) : List Char → Bool
  | [] => pat.isEmpty
  | c :: t => pat.isPrefixOf (c :: t) || listInfixOf pat t

/-- Python's `pat in s` substring containment on strings. -/
def strContains (s pat : String) : Bool := listInfixOf pat.data s.data

/-- Python's `s.startswith(p)` on strings (kernel-reducible version). -/
def strStarts (p s : String) : Bool := p.data.isPrefixOf s.data

/-- Python's `os.path.basename`: everything after the last `/`. -/
def pyBasename (p : String) : String :=
  ⟨p.data.foldl (fun acc c => if c = '/' then [] else acc ++ [c]) []⟩

/-- ASCII lower-casing of one character, as Python's `str.lower` acts on the
ASCII library names appearing here. -/
def charToLower (c : Char) : Char :=
  if 65 ≤ c.toNat && c.toNat ≤ 90 then Char.ofNat (c.toNat + 32) else c

/-- Python's `s.lower()` (kernel-reducible version). -/
def strToLower (s : String) : String := ⟨s.data.map charToLower⟩

/-! ## Embedding of `src/tools/exclude_libs.py` -/

/-- The static exclude list (`GENERATED_EXCLUDE_LIST` in `exclude_libs.py`). -/
def GENERATED_EXCLUDE_LIST : List String := [
  "ld-linux.so.2",
  "ld-linux-x86-64.so.2",
  "libanl.so.1",
  "libasound.so.2",
  "libBrokenLocale.so.1",
  "libcidn.so.1",
  "libcom_err.so.2",
  "libc.so.6",
  "libdl.so.2",
  "libdrm.so.2",
  "libEGL.so.1",
  "libexpat.so.1",
  "libfontconfig.so.1",
  "libfreetype.so.6",
  "libfribidi.so.0",
  "libgbm.so.1",
  "libgcc_s.so.1",
  "libgdk_pixbuf-2.0.so.0",
  "libgio-2.0.so.0",
  "libglapi.so.0",
  "libGLdispatch.so.0",
  "libglib-2.0.so.0",
  "libGL.so.1",
  "libGLX.so.0",
  "libgobject-2.0.so.0",
  "libgpg-error.so.0",
  "libharfbuzz.so.0",
  "libICE.so.6",
  "libjack.so.0",
  "libm.so.6",
  "libmvec.so.1",
  "libnss_compat.so.2",
  "libnss_db.so.2",
  "libnss_dns.so.2",
  "libnss_files.so.2",
  "libnss_hesiod.so.2",
  "libnss_nisplus.so.2",
  "libnss_nis.so.2",
  "libp11-kit.so.0",
  "libpango-1.0.so.0",
  "libpangocairo-1.0.so.0",
  "libpangoft2-1.0.so.0",
  "libpthread.so.0",
  "libresolv.so.2",
  "librt.so.1",
  "libSM.so.6",
  "libstdc++.so.6",
  "libthai.so.0",
  "libthread_db.so.1",
  "libusb-1.0.so.0",
  "libutil.so.1",
  "libuuid.so.1",
  "libX11.so.6",
  "libxcb-dri2.so.0",
  "libxcb-dri3.so.0",
  "libxcb.so.1",
  "libz.so.1"]

/-- Libraries that are never excluded (`NEVER_EXCLUDE_LIST` in
`exclude_libs.py`), including the duplicated QuickControls2 entries. -/
def NEVER_EXCLUDE_LIST : List String := [
  "libQt5Concurrent.so",
  "libQt5QuickControls2.so",
  "libQt5Svg.so",
  "libQt5Widgets.so",
  "libQt5Gui.so",
  "libQt5Core.so",
  "libQt5Network.so",
  "libQt5PrintSupport.so",
  "libQt5Sql.so",
  "libQt5Test.so",
  "libQt5XcbQpa.so",
  "libQt5DBus.so",
  "libQt5XcbQpa.so.5",
  "libQt5DBus.so.5",
  "libQt6XcbQpa.so",
  "libQt6DBus.so",
  "libQt6XcbQpa.so.6",
  "libQt6DBus.so.6",
  "libQt5QuickControls2.so",
  "libQt5QuickTemplates2.so",
  "libQt5QuickControls2.so.5",
  "libQt5QuickTemplates2.so.5",
  "libQt6QuickControls2.so",
  "libQt6QuickTemplates2.so",
  "libQt6QuickControls2.so.6",
  "libQt6QuickTemplates2.so.6",
  "libxcb-render-util.so",
  "libxcb-image.so",
  "libxcb-icccm.so",
  "libxcb-shm.so",
  "libxcb-keysyms.so",
  "libxcb-randr.so",
  "libxcb-render.so",
  "libxcb-shape.so",
  "libxcb-sync.so",
  "libxcb-xfixes.so",
  "libxcb-xkb.so"]

/-- NSS libraries required by QtWebEngine; both `should_exclude_library`
and `should_bundle_library` special-case any basename starting with one
of these. -/
def webengine_required_libs : List String := [
  "libsoftokn3.so",
  "libfreebl3.so",
  "libnss3.so",
  "libnssutil3.so",
  "libsmime3.so",
  "libssl3.so",
  "libsqlite3.so"]

/-- Embedding of `should_exclude_library` from `exclude_libs.py`,
branch for branch: WebEngine NSS names are never excluded, an empty path
is excluded, names on the never-exclude list (exact or versioned-suffix
match) are never excluded, and otherwise the static exclude list decides
by exact or versioned-suffix match. -/
def should_exclude_library (library_path : String) : Bool :=
  let library_name := pyBasename library_path
  if webengine_required_libs.any (fun nss => strStarts nss library_name) then
    false
  else if library_path = "" then
    true
  else if NEVER_EXCLUDE_LIST.any
      (fun nev => library_name = nev || strStarts (nev ++ ".") library_name) then
    false
  else
    GENERATED_EXCLUDE_LIST.any
      (fun exc => library_name = exc || strStarts (exc ++ ".") library_name)

/-- The `critical_qt_patterns` list from `should_bundle_library`. -/
def critical_qt_patterns : List String := [
  "libqt5xcbqpa",
  "libqt5dbus",
  "libqt6xcbqpa",
  "libqt6dbus",
  "libqt5quickcontrols2",
  "libqt5quicktemplates2",
  "libqt6quickcontrols2",
  "libqt6quicktemplates2",
  "libqt5webengine",
  "libqt5webenginecore",
  "libqt5webenginewidgets",
  "libqt6webengine",
  "libqt6webenginecore",
  "libqt6webenginewidgets",
  "libqt5test",
  "libqt6test",
  "libqt4test"]

/-- The `xcb_extension_patterns` list from `should_bundle_library`. -/
def xcb_extension_patterns : List String := [
  "libxcb-dpms",
  "libxcb-icccm",
  "libxcb-image",
  "libxcb-keysyms",
  "libxcb-present",
  "libxcb-randr",
  "libxcb-render",
  "libxcb-render-util",
  "libxcb-shape",
  "libxcb-shm",
  "libxcb-sync",
  "libxcb-util",
  "libxcb-xfixes",
  "libxcb-xinerama",
  "libxcb-xkb",
  "libxcb-xinput"]

/-- The `qt_quick_patterns` list from `should_bundle_library`. -/
def qt_quick_patterns : List String := [
  "libqt5quick",
  "libqt6quick",
  "libqt5qml",
  "libqt6qml",
  "libqt5declarative",
  "libqt6declarative"]

/-- Embedding of `should_bundle_library` from `exclude_libs.py`.  The three
bundling modes are: default (both flags false), bundle-all-but-core
(first flag), bundle-everything (second flag). -/
def should_bundle_library (library_path : String)
    (bundle_all_but_core_libs : Bool) (bundle_everything : Bool) : Bool :=
  if bundle_everything then true
  else
    let library_name := pyBasename library_path
    if webengine_required_libs.any (fun nss => strStarts nss library_name) then
      true
    else if bundle_all_but_core_libs then
      ! should_exclude_library library_path
    else if strContains library_name "libicu" then
      true
    else
      let library_name_lower := strToLower library_name
      if strContains library_name_lower "libqt" then true
      else if critical_qt_patterns.any (fun p => strContains library_name_lower p) then true
      else if xcb_extension_patterns.any (fun p => strContains library_name_lower p) then true
      else if strContains library_name_lower "libqgsttools" then true
      else if qt_quick_patterns.any (fun p => strContains library_name_lower p) then true
      else if strContains library_name_lower "boost" then true
      else false

/-! ## Claims C1 and C7 -/

/-- C1: every library name on the never-exclude list is bundled in every
bundling mode (default, bundle-all-but-core, bundle-everything), and the
never-exclude check makes `should_exclude_library` return `false` for it
even if it also matches the static exclude list. -/
theorem never_exclude_always_wins :
    ∀ L ∈ NEVER_EXCLUDE_LIST,
      should_exclude_library L = false ∧
      ∀ b1 b2 : Bool, should_bundle_library L b1 b2 = true := by
  decide

/-- Witness for C1 at the concrete library `libQt5Core.so`. -/
theorem never_exclude_always_wins_witness :
    "libQt5Core.so" ∈ NEVER_EXCLUDE_LIST ∧
      (should_exclude_library "libQt5Core.so" = false ∧
        ∀ b1 b2 : Bool, should_bundle_library "libQt5Core.so" b1 b2 = true) :=
  ⟨by decide, never_exclude_always_wins "libQt5Core.so" (by decide)⟩

/-- C7: exclude-list matching is exact-name or versioned-suffix only: for a
non-empty path whose basename triggers neither the WebEngine NSS override
nor the never-exclude override, `should_exclude_library` returns `true`
exactly when the basename equals an exclude entry or starts with an exclude
entry followed by a dot.  Concretely, in bundle-all-but-core mode
`libc.so.6.2` is excluded (versioned-suffix match of `libc.so.6`) while
`libcrypt.so` is bundled (no prefix collision with `libc.so`). -/
theorem exclude_matching_exact_or_versioned (path : String)
    (hne : ¬ path = "")
    (hweb : ∀ w ∈ webengine_required_libs, strStarts w (pyBasename path) = false)
    (hnev : ∀ nev ∈ NEVER_EXCLUDE_LIST,
      ¬ pyBasename path = nev ∧ strStarts (nev ++ ".") (pyBasename path) = false) :
    (should_exclude_library path = true ↔
      ∃ exc ∈ GENERATED_EXCLUDE_LIST,
        pyBasename path = exc ∨ strStarts (exc ++ ".") (pyBasename path) = true) ∧
    should_bundle_library "libc.so.6.2" true false = false ∧
    should_bundle_library "libcrypt.so" true false = true := by
  refine ⟨?_, by decide, by decide⟩
  have hw : webengine_required_libs.any
      (fun nss => strStarts nss (pyBasename path)) = false := by
    simp only [List.any_eq_false]
    intro w hwmem
    simp [hweb w hwmem]
  have hn : NEVER_EXCLUDE_LIST.any
      (fun nev => pyBasename path = nev
        || strStarts (nev ++ ".") (pyBasename path)) = false := by
    simp only [List.any_eq_false]
    intro nev hmem
    simp [(hnev nev hmem).1, (hnev nev hmem).2]
  simp only [should_exclude_library, hw, hn, if_neg hne]
  simp [List.any_eq_true]

/-- Witness for C7 at the concrete path `libc.so.6.2`. -/
theorem exclude_matching_exact_or_versioned_witness :
    (¬ "libc.so.6.2" = "") ∧
    ((should_exclude_library "libc.so.6.2" = true ↔
      ∃ exc ∈ GENERATED_EXCLUDE_LIST,
        pyBasename "libc.so.6.2" = exc ∨
          strStarts (exc ++ ".") (pyBasename "libc.so.6.2") = true) ∧
      should_bundle_library "libc.so.6.2" true false = false ∧
      should_bundle_library "libcrypt.so" true false = true) :=
  ⟨by decide,
    exclude_matching_exact_or_versioned "libc.so.6.2" (by decide)
      (by decide) (by decide)⟩

/-! ## Embedding of `src/tools/appdir_paths.py` -/

/-- Python's two-argument `os.path.join`: an absolute second component
replaces the path, otherwise the components are joined with `/` unless the
first is empty or already ends with `/`. -/
def pyJoin (a b : String) : String :=
  if strStarts "/" b then b
  else if a = "" || strStarts "/" ⟨a.data.reverse⟩ then a ++ b
  else a ++ "/" ++ b

/-- The destination directories computed by `AppDirPaths.__init__` for both
layout modes.  Fields mirror the attributes of the Python class. -/
structure AppDirPaths where
  appdir_path : String
  fhs_like_mode : Bool
  fhs_pref : String
  APPRUN : String
  BIN_DIR : String
  LIB_DIR : String
  PLUGINS_DIR : String
  QML_DIR : String
  TRANSLATIONS_DIR : String
  SHARE_DIR : String
  DOC_DIR : String
  LIBEXEC_DIR : String
  RESOURCES_DIR : String
  QT_CONF_PREFIX : String

/-- Embedding of `AppDirPaths.__init__`: FHS-like mode nests everything
under `usr/`, flat mode puts the binary in the root and the rest in
top-level subdirectories. -/
def mkAppDirPaths (appdir_path : String) (fhs_like_mode : Bool)
    (fhs_pref : String) : AppDirPaths :=
  if fhs_like_mode then
    { appdir_path := appdir_path
      fhs_like_mode := fhs_like_mode
      fhs_pref := fhs_pref
      APPRUN := pyJoin appdir_path "AppRun"
      BIN_DIR := pyJoin (pyJoin appdir_path "usr") "bin"
      LIB_DIR := pyJoin (pyJoin appdir_path "usr") "lib"
      PLUGINS_DIR := pyJoin (pyJoin appdir_path "usr") "plugins"
      QML_DIR := pyJoin (pyJoin appdir_path "usr") "qml"
      TRANSLATIONS_DIR := pyJoin (pyJoin appdir_path "usr") "translations"
      SHARE_DIR := pyJoin (pyJoin appdir_path "usr") "share"
      DOC_DIR := pyJoin (pyJoin (pyJoin appdir_path "usr") "share") "doc"
      LIBEXEC_DIR := pyJoin (pyJoin appdir_path "usr") "libexec"
      RESOURCES_DIR := pyJoin (pyJoin appdir_path "usr") "resources"
      QT_CONF_PREFIX := "../" }
  else
    { appdir_path := appdir_path
      fhs_like_mode := fhs_like_mode
      fhs_pref := fhs_pref
      APPRUN := pyJoin appdir_path "AppRun"
      BIN_DIR := appdir_path
      LIB_DIR := pyJoin appdir_path "lib"
      PLUGINS_DIR := pyJoin appdir_path "plugins"
      QML_DIR := pyJoin appdir_path "qml"
      TRANSLATIONS_DIR := pyJoin appdir_path "translations"
      SHARE_DIR := pyJoin appdir_path "share"
      DOC_DIR := pyJoin appdir_path "doc"
      LIBEXEC_DIR := pyJoin appdir_path "libexec"
      RESOURCES_DIR := pyJoin appdir_path "resources"
      QT_CONF_PREFIX := "./" }
/-- Python's `s.replace(old, new)` restricted to deleting every occurrence
of `old` (the only use in `AppDirPaths.bundle_library_directory`), on
character lists. -/
def listDeleteAll (old : List Char) : List Char → List Char
  | [] => []
  | c :: t =>
    if h : old ≠ [] ∧ old.isPrefixOf (c :: t) = true then
      listDeleteAll old ((c :: t).drop old.length)
    else
      c :: listDeleteAll old t
termination_by l => l.length
decreasing_by
  · simp_wf
    have hpos : 0 < old.length := List.length_pos.mpr h.1
    omega
  · simp_wf

/-- Embedding of the `AppDirPaths.bundle_library_directory` property. -/
def bundle_library_directory (p : AppDirPaths) : String :=
  if p.fhs_like_mode then
    pyJoin ⟨listDeleteAll (p.appdir_path ++ "/").data p.fhs_pref.data⟩ "lib"
  else
    "lib"

/-- String prefix order used to express "lies inside the root". -/
def strIsUnder (root d : String) : Prop := ∃ t : String, d = root ++ t

theorem strIsUnder_refl (s : String) : strIsUnder s s := ⟨"", by simp⟩

theorem strIsUnder_trans {a b c : String} (h1 : strIsUnder a b)
    (h2 : strIsUnder b c) : strIsUnder a c := by
  obtain ⟨t1, rfl⟩ := h1
  obtain ⟨t2, rfl⟩ := h2
  exact ⟨t1 ++ t2, by simp [String.ext_iff]⟩

/-- Joining a relative component keeps the result under the base path. -/
theorem pyJoin_isUnder (a b : String) (hb : strStarts "/" b = false) :
    strIsUnder a (pyJoin a b) := by
  unfold pyJoin
  rw [hb]
  by_cases h : a = "" || strStarts "/" ⟨a.data.reverse⟩
  · simp only [h, if_true, Bool.false_eq_true, if_false]
    exact ⟨b, rfl⟩
  · simp only [h, Bool.false_eq_true, if_false]
    exact ⟨"/" ++ b, by simp [String.ext_iff]⟩

/-! ## Claim C9 -/

/-- C9: in flat mode every destination directory exposed by the layout is
inside the root path (and the bundle library directory is the relative
`lib`, which resolves inside the root); in FHS-like mode every library
destination directory is nested under the `usr/` subdirectory of the
root. -/
theorem appdir_layout_stays_inside_root (root pre : String) :
    (∀ d ∈ [(mkAppDirPaths root false pre).BIN_DIR,
        (mkAppDirPaths root false pre).LIB_DIR,
        (mkAppDirPaths root false pre).PLUGINS_DIR,
        (mkAppDirPaths root false pre).QML_DIR,
        (mkAppDirPaths root false pre).TRANSLATIONS_DIR,
        (mkAppDirPaths root false pre).SHARE_DIR,
        (mkAppDirPaths root false pre).DOC_DIR,
        (mkAppDirPaths root false pre).LIBEXEC_DIR,
        (mkAppDirPaths root false pre).RESOURCES_DIR],
      strIsUnder root d) ∧
    bundle_library_directory (mkAppDirPaths root false pre) = "lib" ∧
    strIsUnder root
      (pyJoin root (bundle_library_directory (mkAppDirPaths root false pre))) ∧
    (∀ d ∈ [(mkAppDirPaths root true pre).BIN_DIR,
        (mkAppDirPaths root true pre).LIB_DIR,
        (mkAppDirPaths root true pre).PLUGINS_DIR,
        (mkAppDirPaths root true pre).QML_DIR,
        (mkAppDirPaths root true pre).TRANSLATIONS_DIR,
        (mkAppDirPaths root true pre).SHARE_DIR,
        (mkAppDirPaths root true pre).DOC_DIR,
        (mkAppDirPaths root true pre).LIBEXEC_DIR,
        (mkAppDirPaths root true pre).RESOURCES_DIR],
      strIsUnder (pyJoin root "usr") d ∧ strIsUnder root d) := by
  have husr : strIsUnder root (pyJoin root "usr") :=
    pyJoin_isUnder root "usr" (by decide)
  have base : ∀ b : String, strStarts "/" b = false →
      strIsUnder (pyJoin root "usr") (pyJoin (pyJoin root "usr") b) ∧
        strIsUnder root (pyJoin (pyJoin root "usr") b) := by
    intro b hb
    exact ⟨pyJoin_isUnder _ b hb, strIsUnder_trans husr (pyJoin_isUnder _ b hb)⟩
  refine ⟨?_, rfl, pyJoin_isUnder root "lib" (by decide), ?_⟩
  · intro d hd
    simp only [List.mem_cons, List.not_mem_nil, or_false] at hd
    rcases hd with h | h | h | h | h | h | h | h | h
    · exact h ▸ strIsUnder_refl root
    · exact h ▸ pyJoin_isUnder root "lib" (by decide)
    · exact h ▸ pyJoin_isUnder root "plugins" (by decide)
    · exact h ▸ pyJoin_isUnder root "qml" (by decide)
    · exact h ▸ pyJoin_isUnder root "translations" (by decide)
    · exact h ▸ pyJoin_isUnder root "share" (by decide)
    · exact h ▸ pyJoin_isUnder root "doc" (by decide)
    · exact h ▸ pyJoin_isUnder root "libexec" (by decide)
    · exact h ▸ pyJoin_isUnder root "resources" (by decide)
  · intro d hd
    simp only [List.mem_cons, List.not_mem_nil, or_false] at hd
    have hdoc : strIsUnder (pyJoin root "usr")
        (pyJoin (pyJoin (pyJoin root "usr") "share") "doc") :=
      strIsUnder_trans (pyJoin_isUnder _ "share" (by decide))
        (pyJoin_isUnder _ "doc" (by decide))
    rcases hd with h | h | h | h | h | h | h | h | h
    · exact h ▸ base "bin" (by decide)
    · exact h ▸ base "lib" (by decide)
    · exact h ▸ base "plugins" (by decide)
    · exact h ▸ base "qml" (by decide)
    · exact h ▸ base "translations" (by decide)
    · exact h ▸ base "share" (by decide)
    · exact h ▸ ⟨hdoc, strIsUnder_trans husr hdoc⟩
    · exact h ▸ base "libexec" (by decide)
    · exact h ▸ base "resources" (by decide)

/-! ## Embedding of the RPATH construction in `qt_deployer._change_identification` -/

/-- Order-preserving duplicate removal, mirroring the
`unique_rpath_parts` loop of `_change_identification`. -/
def dedupKeepOrder (parts : List String) : List String :=
  parts.foldl (fun acc part => if part ∈ acc then acc else acc ++ [part]) []

/-- The primary entry `new_rpath_entry` of `_change_identification`:
`$ORIGIN/` plus the relative path from the binary's directory to the lib
directory, or the `$ORIGIN/../lib` fallback when `os.path.relpath`
raised `ValueError` (modelled by `none`). -/
def newRpathEntry (rel_path : Option String) : String :=
  match rel_path with
  | some r => "$ORIGIN/" ++ r
  | none => "$ORIGIN/../lib"

/-- The RPATH entry list computed by `_change_identification` in
`qt_deployer.py`: the base pair, the artifact-kind extension chosen by the
substring tests on `binary_path`, the FHS extension, then order-preserving
deduplication.  The successive Python `extend`s are written as one
append. -/
def computeRpathParts (binary_path : String) (rel_path : Option String)
    (fhs_like_mode : Bool) : List String :=
  dedupKeepOrder
    ((["$ORIGIN", newRpathEntry rel_path] ++
      (if strContains binary_path "plugins" then
        (if strContains binary_path "platforms"
            || strContains binary_path "imageformats" then
          ["$ORIGIN/../../lib", "$ORIGIN/../../../lib"]
        else
          ["$ORIGIN/../../lib"])
      else if strContains binary_path "qml" then
        ["$ORIGIN/../../lib", "$ORIGIN/../../../lib", "$ORIGIN/../../../../lib"]
      else
        ["$ORIGIN/lib", "$ORIGIN/../lib"])) ++
      (if fhs_like_mode then ["$ORIGIN/../../lib", "$ORIGIN/../usr/lib"] else []))

theorem dedupKeepOrder_sub {parts : List String} {e : String}
    (he : e ∈ dedupKeepOrder parts) : e ∈ parts := by
  have key : ∀ l acc : List String, e ∈ l.foldl
      (fun acc part => if part ∈ acc then acc else acc ++ [part]) acc →
      e ∈ l ∨ e ∈ acc := by
    intro l
    induction l with
    | nil => intro acc h; exact Or.inr h
    | cons x xs ih =>
      intro acc h
      simp only [List.foldl_cons] at h
      rcases ih _ h with hx | hacc
      · exact Or.inl (List.mem_cons_of_mem _ hx)
      · by_cases hmem : x ∈ acc
        · rw [if_pos hmem] at hacc
          exact Or.inr hacc
        · rw [if_neg hmem] at hacc
          rcases List.mem_append.mp hacc with h1 | h1
          · exact Or.inr h1
          · simp only [List.mem_singleton] at h1
            exact Or.inl (h1 ▸ List.mem_cons_self _ _)
  rcases key parts [] he with h | h
  · exact h
  · exact absurd h (List.not_mem_nil e)

/-- Every computed RPATH entry is the primary entry or one of the fixed
`$ORIGIN`-rooted strings. -/
theorem computeRpathParts_shape (binary_path : String) (rel_path : Option String)
    (fhs_like_mode : Bool) :
    ∀ e ∈ computeRpathParts binary_path rel_path fhs_like_mode,
      e = newRpathEntry rel_path ∨
        e ∈ ["$ORIGIN", "$ORIGIN/../../lib", "$ORIGIN/../../../lib",
          "$ORIGIN/../../../../lib", "$ORIGIN/lib", "$ORIGIN/../lib",
          "$ORIGIN/../usr/lib"] := by
  intro e he
  have he' := dedupKeepOrder_sub he
  revert he'
  split
  · split
    all_goals (intro he'; split at he' <;>
      (simp only [List.mem_append, List.mem_cons,
        List.not_mem_nil, or_false] at he' ⊢; tauto))
  · split
    all_goals (intro he'; split at he' <;>
      (simp only [List.mem_append, List.mem_cons,
        List.not_mem_nil, or_false] at he' ⊢; tauto))

/-! ## Claim C5 -/

/-- C5: every RPATH entry computed in `_change_identification` starts with
`$ORIGIN` by construction (for every artifact kind, relative-path result
and layout mode), hence no entry is a filesystem-absolute path. -/
theorem rpath_entries_never_absolute (binary_path : String)
    (rel_path : Option String) (fhs_like_mode : Bool) :
    ∀ e ∈ computeRpathParts binary_path rel_path fhs_like_mode,
      strStarts "$ORIGIN" e = true ∧ strStarts "/" e = false := by
  intro e he
  rcases computeRpathParts_shape binary_path rel_path fhs_like_mode e he with h | h
  · subst h
    rcases rel_path with _ | r
    · exact ⟨by decide, by decide⟩
    · constructor
      · have h1 : ("$ORIGIN".data).isPrefixOf ("$ORIGIN/".data ++ r.data) = true := by
          rw [List.isPrefixOf_iff_prefix]
          exact List.IsPrefix.trans (by decide) (List.prefix_append _ _)
        exact h1
      · simp [newRpathEntry, strStarts, List.isPrefixOf]
  · simp only [List.mem_cons, List.not_mem_nil, or_false] at h
    rcases h with h | h | h | h | h | h | h
    all_goals (subst h; exact ⟨by decide, by decide⟩)

/-! ## Embedding of `qt_deployer._verify_and_fix_rpaths`

The directory walk and the `patchelf --print-rpath` subprocess are
abstracted away: the audit's input is the list of (ELF file path, RPATH
string) pairs that the walk would produce. -/

/-- Splitting a character list at a separator character; models Python's
`str.split(sep)` for a one-character separator. -/
def listSplitOnChar (sep : Char) : List Char → List (List Char)
  | [] => [[]]
  | c :: t =>
    if c = sep then [] :: listSplitOnChar sep t
    else
      match listSplitOnChar sep t with
      | [] => [[c]]
      | h :: t' => (c :: h) :: t'

/-- Python's `current_rpath.split(":")`. -/
def splitColon (s : String) : List String :=
  (listSplitOnChar ':' s.data).map (fun l => ⟨l⟩)

/-- The `has_absolute_paths` test of `_verify_and_fix_rpaths`: some
colon-separated component neither starts with `$ORIGIN` nor is empty. -/
def rpathHasAbsolute (rpath : String) : Bool :=
  (splitColon rpath).any (fun p => !(strStarts "$ORIGIN" p) && !(decide (p = "")))

/-- The flagging condition of the first audit pass
(`if has_absolute_paths or not current_rpath`). -/
def isProblematicRpath (rpath : String) : Bool :=
  rpathHasAbsolute rpath || decide (rpath = "")

/-- The first audit loop: collect the files whose RPATH is flagged as
problematic (each flagged file is also logged as a warning in the
source). -/
def collectProblematic : List (String × String) → List (String × String)
  | [] => []
  | f :: rest =>
    if isProblematicRpath f.2 then f :: collectProblematic rest
    else collectProblematic rest

/-- The "fix" loop of `_verify_and_fix_rpaths`: the loop body is `pass`
(the `_change_identification` call was removed from the source), so the
list of repair actions performed is empty whatever the input. -/
def repairLoop : List (String × String) → List String
  | [] => []
  | _ :: rest => repairLoop rest

/-- The re-check loop: count flagged files whose RPATH still has an
absolute component (the empty-RPATH test is not repeated here).  Since no
repair ran, the RPATH strings are unchanged. -/
def recheckCount : List (String × String) → Nat
  | [] => 0
  | f :: rest => (if rpathHasAbsolute f.2 then 1 else 0) + recheckCount rest

/-- The audit phase of `_verify_and_fix_rpaths` over the walked (file,
RPATH) pairs: the flagged files, the repair actions performed, and the
still-problematic count of the re-check. -/
def verify_and_fix_rpaths (files : List (String × String)) :
    List (String × String) × List String × Nat :=
  let problematic := collectProblematic files
  (problematic, repairLoop problematic, recheckCount problematic)

/-! ## Claim C6 -/

/-- C6 counterexample: a walked file with the absolute RPATH `/usr/lib`
is flagged by the audit, yet the list of repair actions performed on the
flagged files is empty — no best-effort repair is attempted even once,
contradicting the claim that each flagged file is repaired exactly
once. -/
theorem rpath_audit_repairs_nothing_counterexample :
    (verify_and_fix_rpaths [("libfoo.so", "/usr/lib")]).1
        = [("libfoo.so", "/usr/lib")] ∧
      (verify_and_fix_rpaths [("libfoo.so", "/usr/lib")]).2.1 = [] := by
  decide

/-- C6 amended: the audit flags exactly the ELF files whose RPATH has a
filesystem-absolute (non-`$ORIGIN`) component or is empty and logs them;
it performs no repair at all (the repair loop is a deliberate no-op);
the re-check then counts the flagged files that still have an absolute
component — which, the RPATHs being untouched, is just the flagged files
whose RPATH has an absolute component. -/
theorem rpath_audit_flags_but_never_repairs (files : List (String × String)) :
    (verify_and_fix_rpaths files).1
        = files.filter (fun f => isProblematicRpath f.2) ∧
      (verify_and_fix_rpaths files).2.1 = [] ∧
      (verify_and_fix_rpaths files).2.2
        = ((verify_and_fix_rpaths files).1.filter
            (fun f => rpathHasAbsolute f.2)).length := by
  have hcollect : ∀ l : List (String × String),
      collectProblematic l = l.filter (fun f => isProblematicRpath f.2) := by
    intro l
    induction l with
    | nil => rfl
    | cons f rest ih =>
      by_cases h : isProblematicRpath f.2
      · simp [collectProblematic, h, List.filter_cons, ih]
      · simp [collectProblematic, h, List.filter_cons, ih]
  have hrepair : ∀ l : List (String × String), repairLoop l = [] := by
    intro l
    induction l with
    | nil => rfl
    | cons f rest ih => simpa [repairLoop] using ih
  have hcount : ∀ l : List (String × String),
      recheckCount l = (l.filter (fun f => rpathHasAbsolute f.2)).length := by
    intro l
    induction l with
    | nil => rfl
    | cons f rest ih =>
      by_cases h : rpathHasAbsolute f.2
      · simp [recheckCount, h, List.filter_cons, ih]
        omega
      · simp [recheckCount, h, List.filter_cons, ih]
  refine ⟨hcollect files, hrepair _, ?_⟩
  simp only [verify_and_fix_rpaths]
  rw [hcount]

/-- Witness for C5 at a concrete plugins binary: the plugin entry
`$ORIGIN/../../lib` is computed and is not absolute. -/
theorem rpath_entries_never_absolute_witness :
    strStarts "$ORIGIN" "$ORIGIN/../../lib" = true ∧
      strStarts "/" "$ORIGIN/../../lib" = false :=
  rpath_entries_never_absolute "plugins/platforms/libqxcb.so"
    (some "../../lib") false "$ORIGIN/../../lib" (by decide)

/-- Witness for C9 at the concrete root `/AppDir`. -/
theorem appdir_layout_stays_inside_root_witness :
    strIsUnder "/AppDir" ((mkAppDirPaths "/AppDir" false "").LIB_DIR) :=
  (appdir_layout_stays_inside_root "/AppDir" "").1
    ((mkAppDirPaths "/AppDir" false "").LIB_DIR) (by simp)

/-! ## Embedding of `ldd_dependency_collector._find_dependency_info`

The `ldd` subprocess is abstracted into its output lines; `os.path.exists`
into a predicate `ex`.  The two regular expressions of the collector are
implemented as executable scanners over the line's characters. -/

/-- Python's `s.strip()`: drop leading and trailing whitespace. -/
def strStrip (s : String) : String :=
  ⟨((s.data.dropWhile Char.isWhitespace).reverse.dropWhile
      Char.isWhitespace).reverse⟩

/-- All positions of `l` where `sep` occurs (possibly overlapping),
used to model regex alternatives over separator occurrences. -/
def sepPositions (sep l : List Char) : List Nat :=
  (List.range l.length).filter (fun i => sep.isPrefixOf (l.drop i))

/-- The group of `(.+) \(` against `after`: the text before the last
occurrence of `" ("` that has at least one character before it. -/
def parenGroup (after : List Char) : Option (List Char) :=
  match ((sepPositions " (".data after).filter (fun j => 1 ≤ j)).getLast? with
  | some j => some (after.take j)
  | none => none

/-- Matching of `ldd_pattern = r"^.+ => (.+) \("` (the group, if the line
matches): the regex engine greedily picks the last occurrence of `" => "`
with a nonempty prefix before it whose suffix still matches `(.+) \(`. -/
def matchArrow (line : String) : Option String :=
  let l := line.data
  (((sepPositions " => ".data l).filter (fun i => 1 ≤ i)).foldl
    (fun acc i =>
      match parenGroup (l.drop (i + 4)) with
      | some g => some ⟨g⟩
      | none => acc)
    none)

/-- Matching of `ldd_pattern_absolute = r"^(\S+\.so[^\s]*)\s+\("`: the
leading whitespace-free token must contain `.so` after its first
character and be followed by whitespace and a literal `(`. -/
def matchAbsolute (line : String) : Option String :=
  let l := line.data
  let tok := l.takeWhile (fun c => !c.isWhitespace)
  let rest := l.drop tok.length
  let ws := rest.takeWhile (fun c => c.isWhitespace)
  if tok ≠ [] ∧ listInfixOf ".so".data (tok.drop 1) = true ∧ ws ≠ [] ∧
      ("(".data.isPrefixOf (rest.drop ws.length)) = true then
    some ⟨tok⟩
  else
    none

/-- The per-line dependency extraction of `_find_dependency_info`: the
arrow pattern first, then the absolute/virtual pattern with the
`linux-vdso` skip and the existence filter. -/
def lineDepPath (ex : String → Bool) (line : String) : Option String :=
  match matchArrow line with
  | some g => some (strStrip g)
  | none =>
    match matchAbsolute line with
    | some cand0 =>
      let cand := strStrip cand0
      if !(strStarts "linux-vdso" cand) && ex cand then some cand else none
    | none => none

/-- The line loop of `_find_dependency_info`: dependencies are
accumulated; a line with no dependency that contains `not found` while
`qt_detection_complete` holds raises `RuntimeError` (second component),
abandoning the rest of the lines but keeping the dependencies collected
so far (the Python `ldd_info` object is mutated in place). -/
def findDepLoop (qdc : Bool) (ex : String → Bool) :
    List String → List String → List String × Option String
  | [], acc => (acc, none)
  | line :: rest, acc =>
    match lineDepPath ex line with
    | some p => findDepLoop qdc ex rest (acc ++ [p])
    | none =>
      if strContains line "not found" && qdc then (acc, some (strStrip line))
      else findDepLoop qdc ex rest acc

/-- The body of `_find_dependency_info` after the `ldd` run: fewer than
two output lines yield an empty dependency list, otherwise the line loop
runs.  The second component records a raised `RuntimeError`. -/
def find_dependency_info_deps (qdc : Bool) (ex : String → Bool)
    (lines : List String) : List String × Option String :=
  if lines.length < 2 then ([], none)
  else findDepLoop qdc ex lines []

/-- What the caller of `_find_dependency_info` observes: the function's
own `except Exception` handler catches the raised `RuntimeError`, logs
it, and returns the partially filled `ldd_info`, so the caller always
receives a normal return. -/
def find_dependency_info_result (qdc : Bool) (ex : String → Bool)
    (lines : List String) : Except String (List String) :=
  match find_dependency_info_deps qdc ex lines with
  | (acc, some _) => Except.ok acc
  | (acc, none) => Except.ok acc

/-! ## Claim C4 -/

/-- C4 counterexample: on ldd output with a `not found` line while
detection is complete, a `RuntimeError` is raised inside the loop (second
component `some …`), yet the caller of the resolution operation receives
a normal `Except.ok` with the partial dependency list — the error does
not propagate out of `_find_dependency_info`. -/
theorem not_found_error_swallowed_counterexample :
    (find_dependency_info_deps true (fun _ => false)
        ["liba.so.1 => /lib/liba.so.1 (0x00007f)", "libmiss.so => not found"]).2
      = some "libmiss.so => not found" ∧
    find_dependency_info_result true (fun _ => false)
        ["liba.so.1 => /lib/liba.so.1 (0x00007f)", "libmiss.so => not found"]
      = Except.ok ["/lib/liba.so.1"] :=
  ⟨rfl, rfl⟩

/-- C4 amended: the `not found` check does raise a `RuntimeError` when
detection is complete, but the error is caught by the function's own
generic handler: for every input the caller receives a normal return
carrying the dependencies collected before the error, and with detection
not complete no error is ever raised. -/
theorem not_found_error_never_escapes (qdc : Bool) (ex : String → Bool)
    (lines : List String) :
    find_dependency_info_result qdc ex lines
        = Except.ok (find_dependency_info_deps qdc ex lines).1 ∧
      (find_dependency_info_deps false ex lines).2 = none := by
  constructor
  · unfold find_dependency_info_result
    rcases h : find_dependency_info_deps qdc ex lines with ⟨acc, err⟩
    cases err <;> simp [h]
  · have hloop : ∀ (l acc : List String), (findDepLoop false ex l acc).2 = none := by
      intro l
      induction l with
      | nil => intro acc; rfl
      | cons line rest ih =>
        intro acc
        simp only [findDepLoop]
        cases h : lineDepPath ex line with
        | some p => exact ih _
        | none => simp [ih _]
    unfold find_dependency_info_deps
    by_cases h : lines.length < 2
    · simp [h]
    · simp [h, hloop]

/-! ## Embedding of `ldd_dependency_collector._collect_all_libraries`

The recursion of `_collect_all_libraries` is embedded with an explicit
fuel argument standing for the Python call stack: fuel is consumed only
when a fresh binary is expanded, and `none` means the stack budget was
exhausted.  `deps` abstracts `_find_dependency_info` (which catches all
its own errors and returns a dependency list), `ex` abstracts
`os.path.exists`, and the mutable `processed`/`libraries` sets are
threaded as `Finset String` values. -/

mutual
/-- The outer loop of `_collect_all_libraries` over `binary_paths`:
already-processed binaries are skipped, a fresh binary is added to
`processed` and its dependency list is walked by `depsLoop`, and the
libraries found are unioned across the loop. -/
def collectAll (deps : String → List String) (ex : String → Bool) :
    Nat → List String → Finset String → Option (Finset String × Finset String)
  | _, [], processed => some (∅, processed)
  | fuel, b :: rest, processed =>
    if b ∈ processed then collectAll deps ex fuel rest processed
    else
      match fuel with
      | 0 => none
      | f + 1 =>
        match depsLoop deps ex f (deps b) (insert b processed) with
        | none => none
        | some (libs, p2) =>
          match collectAll deps ex (f + 1) rest p2 with
          | none => none
          | some (libsR, p3) => some (libs ∪ libsR, p3)
termination_by fuel bins processed => (fuel, 1, bins.length)

/-- The inner loop of `_collect_all_libraries` over the dependencies of
one binary: each dependency joins the `libraries` set, and a dependency
that is unprocessed and exists on disk is expanded recursively through
`collectAll` with a singleton worklist, exactly as the source calls
`self._collect_all_libraries([lib_path], processed)`. -/
def depsLoop (deps : String → List String) (ex : String → Bool) :
    Nat → List String → Finset String → Option (Finset String × Finset String)
  | _, [], processed => some (∅, processed)
  | fuel, d :: ds, processed =>
    if d ∉ processed ∧ ex d = true then
      match collectAll deps ex fuel [d] processed with
      | none => none
      | some (sub, p2) =>
        match depsLoop deps ex fuel ds p2 with
        | none => none
        | some (libsR, p3) => some (insert d (sub ∪ libsR), p3)
    else
      match depsLoop deps ex fuel ds processed with
      | none => none
      | some (libsR, p2) => some (insert d libsR, p2)
termination_by fuel ds processed => (fuel, 2, ds.length)
end

/-- The `processed` set only grows: whatever a successful collection
returns contains the initial processed set. -/
theorem collect_mono (deps : String → List String) (ex : String → Bool) :
    ∀ fuel : Nat,
      (∀ (bins : List String) (proc : Finset String) libs p',
        collectAll deps ex fuel bins proc = some (libs, p') → proc ⊆ p') ∧
      (∀ (ds : List String) (proc : Finset String) libs p',
        depsLoop deps ex fuel ds proc = some (libs, p') → proc ⊆ p') := by
  intro fuel
  induction fuel using Nat.strong_induction_on with
  | _ fuel ih =>
  have singl : ∀ (f : Nat), f < fuel → ∀ (d : String) (proc : Finset String) libs p',
      d ∉ proc → collectAll deps ex (f + 1) [d] proc = some (libs, p') → proc ⊆ p' := by
    intro f hf d proc libs p' hd hc
    rw [collectAll.eq_3, if_neg hd] at hc
    rcases hdl : depsLoop deps ex f (deps d) (insert d proc) with _ | ⟨l1, p2⟩
    · simp [hdl] at hc
    · simp only [hdl, collectAll.eq_1, Option.some.injEq, Prod.mk.injEq] at hc
      have h2 : insert d proc ⊆ p2 :=
        (ih f hf).2 (deps d) (insert d proc) l1 p2 hdl
      exact hc.2 ▸ (Finset.subset_insert d proc).trans h2
  constructor
  · intro bins
    induction bins with
    | nil =>
      intro proc libs p' h
      rw [collectAll.eq_1] at h
      simp only [Option.some.injEq, Prod.mk.injEq] at h
      exact h.2 ▸ Finset.Subset.refl proc
    | cons b rest ihb =>
      intro proc libs p' h
      cases fuel with
      | zero =>
        rw [collectAll.eq_2] at h
        by_cases hb : b ∈ proc
        · rw [if_pos hb] at h; exact ihb proc libs p' h
        · rw [if_neg hb] at h; exact absurd h (by simp)
      | succ f =>
        rw [collectAll.eq_3] at h
        by_cases hb : b ∈ proc
        · rw [if_pos hb] at h; exact ihb proc libs p' h
        · rw [if_neg hb] at h
          rcases hd : depsLoop deps ex f (deps b) (insert b proc) with _ | ⟨l1, p2⟩
          · simp [hd] at h
          · simp only [hd] at h
            rcases hc : collectAll deps ex (f + 1) rest p2 with _ | ⟨l2, p3⟩
            · simp [hc] at h
            · simp only [hc, Option.some.injEq, Prod.mk.injEq] at h
              have h1 : proc ⊆ insert b proc := Finset.subset_insert b proc
              have h2 : insert b proc ⊆ p2 :=
                (ih f (Nat.lt_succ_self f)).2 (deps b) (insert b proc) l1 p2 hd
              have h3 : p2 ⊆ p3 := ihb p2 l2 p3 hc
              exact h.2 ▸ (h1.trans h2).trans h3
  · intro ds
    induction ds with
    | nil =>
      intro proc libs p' h
      rw [depsLoop.eq_1] at h
      simp only [Option.some.injEq, Prod.mk.injEq] at h
      exact h.2 ▸ Finset.Subset.refl proc
    | cons d ds' ihd =>
      intro proc libs p' h
      rw [depsLoop.eq_2] at h
      by_cases hd : d ∉ proc ∧ ex d = true
      · rw [if_pos hd] at h
        rcases hc : collectAll deps ex fuel [d] proc with _ | ⟨l1, p2⟩
        · simp [hc] at h
        · simp only [hc] at h
          rcases hdl : depsLoop deps ex fuel ds' p2 with _ | ⟨l2, p3⟩
          · simp [hdl] at h
          · simp only [hdl, Option.some.injEq, Prod.mk.injEq] at h
            have h1 : proc ⊆ p2 := by
              cases fuel with
              | zero => rw [collectAll.eq_2, if_neg hd.1] at hc; exact absurd hc (by simp)
              | succ f => exact singl f (Nat.lt_succ_self f) d proc l1 p2 hd.1 hc
            have h2 : p2 ⊆ p3 := ihd p2 l2 p3 hdl
            exact h.2 ▸ h1.trans h2
      · rw [if_neg hd] at h
        rcases hdl : depsLoop deps ex fuel ds' proc with _ | ⟨l2, p2⟩
        · simp [hdl] at h
        · simp only [hdl, Option.some.injEq, Prod.mk.injEq] at h
          exact h.2 ▸ ihd proc l2 p2 hdl

/-- With a finite universe `U` closed under the dependency map, a fuel
budget exceeding the number of unprocessed universe nodes always
suffices: the collection returns a result instead of running out of
stack.  This is the formal content of termination on every finite
dependency graph, cycles included, and rests on the `processed` set
growing at every fresh expansion. -/
theorem collect_sufficient (deps : String → List String) (ex : String → Bool)
    (U : Finset String) (hclosed : ∀ x : String, ∀ d ∈ deps x, d ∈ U) :
    ∀ fuel : Nat,
      (∀ (bins : List String) (proc : Finset String),
        (U \ proc).card < fuel → (collectAll deps ex fuel bins proc).isSome = true) ∧
      (∀ (ds : List String) (proc : Finset String),
        (∀ d ∈ ds, d ∈ U) → (U \ proc).card ≤ fuel →
          (depsLoop deps ex fuel ds proc).isSome = true) := by
  intro fuel
  induction fuel using Nat.strong_induction_on with
  | _ fuel ih =>
  constructor
  · intro bins
    induction bins with
    | nil =>
      intro proc hcard
      rw [collectAll.eq_1]
      rfl
    | cons b rest ihb =>
      intro proc hcard
      cases fuel with
      | zero => omega
      | succ f =>
        rw [collectAll.eq_3]
        by_cases hb : b ∈ proc
        · rw [if_pos hb]
          exact ihb proc hcard
        · rw [if_neg hb]
          have hcard2 : (U \ insert b proc).card ≤ f := by
            have hle : (U \ insert b proc).card ≤ (U \ proc).card :=
              Finset.card_le_card
                (Finset.sdiff_subset_sdiff (Finset.Subset.refl U)
                  (Finset.subset_insert b proc))
            omega
          have hd : (depsLoop deps ex f (deps b) (insert b proc)).isSome = true :=
            (ih f (Nat.lt_succ_self f)).2 (deps b) (insert b proc)
              (fun d hdm => hclosed b d hdm) hcard2
          rcases hdl : depsLoop deps ex f (deps b) (insert b proc) with _ | ⟨l1, p2⟩
          · rw [hdl] at hd; exact absurd hd (by simp)
          · simp only [hdl]
            have hmono : proc ⊆ p2 :=
              (Finset.subset_insert b proc).trans
                ((collect_mono deps ex f).2 (deps b) (insert b proc) l1 p2 hdl)
            have hcard3 : (U \ p2).card < f + 1 := by
              have hle : (U \ p2).card ≤ (U \ proc).card :=
                Finset.card_le_card
                  (Finset.sdiff_subset_sdiff (Finset.Subset.refl U) hmono)
              omega
            have hrest := ihb p2 hcard3
            rcases hcr : collectAll deps ex (f + 1) rest p2 with _ | ⟨l2, p3⟩
            · rw [hcr] at hrest; exact absurd hrest (by simp)
            · simp only [hcr]; rfl
  · intro ds
    induction ds with
    | nil =>
      intro proc hds hcard
      rw [depsLoop.eq_1]
      rfl
    | cons d ds' ihd =>
      intro proc hds hcard
      rw [depsLoop.eq_2]
      by_cases hd : d ∉ proc ∧ ex d = true
      · rw [if_pos hd]
        have hdU : d ∈ U := hds d (List.mem_cons_self d ds')
        have hdin : d ∈ U \ proc := Finset.mem_sdiff.mpr ⟨hdU, hd.1⟩
        have hpos : 0 < (U \ proc).card :=
          Finset.card_pos.mpr ⟨d, hdin⟩
        cases fuel with
        | zero => omega
        | succ f =>
          have hsing : (collectAll deps ex (f + 1) [d] proc).isSome = true := by
            rw [collectAll.eq_3, if_neg hd.1]
            have hcard2 : (U \ insert d proc).card ≤ f := by
              have hsub : U \ insert d proc ⊆ U \ proc :=
                Finset.sdiff_subset_sdiff (Finset.Subset.refl U)
                  (Finset.subset_insert d proc)
              have hne : d ∉ U \ insert d proc := by simp
              have hlt : (U \ insert d proc).card < (U \ proc).card :=
                Finset.card_lt_card
                  (Finset.ssubset_def.mpr ⟨hsub, fun hts => hne (hts hdin)⟩)
              omega
            have hdl2 : (depsLoop deps ex f (deps d) (insert d proc)).isSome = true :=
              (ih f (Nat.lt_succ_self f)).2 (deps d) (insert d proc)
                (fun e he => hclosed d e he) hcard2
            rcases h2 : depsLoop deps ex f (deps d) (insert d proc) with _ | ⟨li, pi⟩
            · rw [h2] at hdl2; exact absurd hdl2 (by simp)
            · simp only [h2, collectAll.eq_1]; rfl
          rcases hc : collectAll deps ex (f + 1) [d] proc with _ | ⟨l1, p2⟩
          · rw [hc] at hsing; exact absurd hsing (by simp)
          · simp only [hc]
            have hmono : proc ⊆ p2 :=
              (collect_mono deps ex (f + 1)).1 [d] proc l1 p2 hc
            have hcard3 : (U \ p2).card ≤ f + 1 := by
              have hle : (U \ p2).card ≤ (U \ proc).card :=
                Finset.card_le_card
                  (Finset.sdiff_subset_sdiff (Finset.Subset.refl U) hmono)
              omega
            have hrest := ihd p2 (fun e he => hds e (List.mem_cons_of_mem d he)) hcard3
            rcases hdl : depsLoop deps ex (f + 1) ds' p2 with _ | ⟨l2, p3⟩
            · rw [hdl] at hrest; exact absurd hrest (by simp)
            · simp only [hdl]; rfl
      · rw [if_neg hd]
        have hrest := ihd proc (fun e he => hds e (List.mem_cons_of_mem d he)) hcard
        rcases hdl : depsLoop deps ex fuel ds' proc with _ | ⟨l2, p2⟩
        · rw [hdl] at hrest; exact absurd hrest (by simp)
        · simp only [hdl]; rfl

/-- The synthetic 3-node dependency cycle A → B → C → A. -/
def cycleDeps : String → List String := fun s =>
  if s = "A" then ["B"] else if s = "B" then ["C"] else if s = "C" then ["A"] else []

/-! ## Claim C2 -/

/-- C2: dependency-closure collection terminates on every finite
dependency graph, cyclic ones included — whenever the dependency map
stays inside a finite universe `U` and the fuel (call-stack budget)
exceeds the unprocessed part of `U`, the collection returns a result —
and on the synthetic 3-node cycle A → B → C → A it returns exactly the
set {A, B, C}, each element once (the result is a `Finset`). -/
theorem dependency_closure_terminates (deps : String → List String)
    (ex : String → Bool) (U : Finset String) (fuel : Nat)
    (bins : List String) (proc : Finset String)
    (hclosed : ∀ x : String, ∀ d ∈ deps x, d ∈ U)
    (hfuel : (U \ proc).card < fuel) :
    (collectAll deps ex fuel bins proc).isSome = true ∧
    collectAll cycleDeps (fun _ => true) 4 ["A"] ∅
      = some ({"A", "B", "C"}, {"A", "B", "C"}) :=
  ⟨(collect_sufficient deps ex U hclosed fuel).1 bins proc hfuel,
    by simp [collectAll, depsLoop, cycleDeps]; decide⟩

/-- Witness for C2 on the 3-node cycle itself. -/
theorem dependency_closure_terminates_witness :
    (collectAll cycleDeps (fun _ => true) 4 ["A"] ∅).isSome = true ∧
    collectAll cycleDeps (fun _ => true) 4 ["A"] ∅
      = some ({"A", "B", "C"}, {"A", "B", "C"}) :=
  dependency_closure_terminates cycleDeps (fun _ => true) {"A", "B", "C"} 4 ["A"] ∅
    (by
      intro x d hd
      simp only [cycleDeps] at hd
      split_ifs at hd <;> simp_all)
    (by decide)

/-! ## Embedding of `src/tools/patch_gnustack.py`

The file is a list of byte values; Python's buffered reads
(`struct.unpack` over slices of the fully read file) become `readU`, and
the in-place 4-byte write (`wf.seek`/`wf.write`) becomes `writeWord`.  A
`struct.unpack` on a short slice raises, which makes the on-disk state at
that moment the function's result: the embedding returns the current
buffer in every such case. -/

/-- Indexing `elf[i]` (an out-of-range access raises in Python; `none` here). -/
def byteAt (l : List Nat) (i : Nat) : Option Nat := l.get? i

/-- A slice `elf[off : off + len]` as consumed by `struct.unpack`: `none`
when the slice is short and `unpack` would raise `struct.error`. -/
def readBytes (l : List Nat) (off len : Nat) : Option (List Nat) :=
  if off + len ≤ l.length then some ((l.drop off).take len) else none

/-- Little-endian value of a byte list (`struct.unpack("<...")`). -/
def leVal (bs : List Nat) : Nat := bs.foldr (fun b acc => b + 256 * acc) 0

/-- Big-endian value of a byte list (`struct.unpack(">...")`). -/
def beVal (bs : List Nat) : Nat := bs.foldl (fun acc b => 256 * acc + b) 0

/-- Reading an unsigned field of `len` bytes at `off` with the given
endianness, as `struct.unpack` over a slice of the file. -/
def readU (l : List Nat) (little : Bool) (off len : Nat) : Option Nat :=
  (readBytes l off len).map (fun bs => if little then leVal bs else beVal bs)

/-- The 4 bytes written by `struct.pack(endian + "I", v)`. -/
def packU32 (little : Bool) (v : Nat) : List Nat :=
  if little then [v % 256, v / 256 % 256, v / 65536 % 256, v / 16777216 % 256]
  else [v / 16777216 % 256, v / 65536 % 256, v / 256 % 256, v % 256]

/-- The in-place overwrite `wf.seek(off); wf.write(w)` on the file bytes. -/
def writeWord (l : List Nat) (off : Nat) (w : List Nat) : List Nat :=
  l.take off ++ (w ++ l.drop (off + w.length))

theorem land_seven (n : Nat) : n &&& 7 = n % 8 := Nat.and_pow_two_sub_one_eq_mod n 3

theorem readU_bound {l : List Nat} {little : Bool} {off len v : Nat}
    (h : readU l little off len = some v) : off + len ≤ l.length := by
  by_cases hb : off + len ≤ l.length
  · exact hb
  · simp [readU, readBytes, hb] at h

theorem readU_eq {l : List Nat} {little : Bool} {off len : Nat}
    (h : off + len ≤ l.length) :
    readU l little off len
      = some (if little then leVal ((l.drop off).take len)
          else beVal ((l.drop off).take len)) := by
  simp [readU, readBytes, h]

theorem list_len_four {xs : List Nat} (h : xs.length = 4) :
    ∃ a b c d, xs = [a, b, c, d] := by
  rcases xs with _ | ⟨a, xs⟩
  · simp at h
  rcases xs with _ | ⟨b, xs⟩
  · simp at h
  rcases xs with _ | ⟨c, xs⟩
  · simp at h
  rcases xs with _ | ⟨d, xs⟩
  · simp at h
  have hnil : xs = [] := by
    simp only [List.length_cons] at h
    exact List.length_eq_zero.mp (by omega)
  exact ⟨a, b, c, d, by rw [hnil]⟩

theorem window4 {l : List Nat} {off : Nat} (h : off + 4 ≤ l.length) :
    ∃ a b c d, (l.drop off).take 4 = [a, b, c, d] ∧
      l.get? off = some a ∧ l.get? (off + 1) = some b ∧
      l.get? (off + 2) = some c ∧ l.get? (off + 3) = some d := by
  have hlen : ((l.drop off).take 4).length = 4 := by
    simp [List.length_take, List.length_drop]
    omega
  obtain ⟨a, b, c, d, habcd⟩ := list_len_four hlen
  have hg : ∀ i, i < 4 → ((l.drop off).take 4).get? i = l.get? (off + i) := by
    intro i hi
    rw [List.get?_take hi, List.get?_drop]
  refine ⟨a, b, c, d, habcd, ?_, ?_, ?_, ?_⟩
  · have h0 := hg 0 (by omega); rw [habcd] at h0
    simpa using h0.symm
  · have h1 := hg 1 (by omega); rw [habcd] at h1
    simpa using h1.symm
  · have h2 := hg 2 (by omega); rw [habcd] at h2
    simpa using h2.symm
  · have h3 := hg 3 (by omega); rw [habcd] at h3
    simpa using h3.symm

theorem leVal_four (a b c d : Nat) :
    leVal [a, b, c, d] = a + 256 * b + 65536 * c + 16777216 * d := by
  simp [leVal]; ring

theorem beVal_four (a b c d : Nat) :
    beVal [a, b, c, d] = 16777216 * a + 65536 * b + 256 * c + d := by
  simp [beVal]; ring

theorem writeWord_length {l w : List Nat} {off : Nat}
    (h : off + w.length ≤ l.length) : (writeWord l off w).length = l.length := by
  simp [writeWord]
  omega

theorem writeWord_get?_lt {l w : List Nat} {off pos : Nat}
    (h : off + w.length ≤ l.length) (hp : pos < off) :
    (writeWord l off w).get? pos = l.get? pos := by
  unfold writeWord
  rw [List.get?_append (by simp [List.length_take]; omega)]
  exact List.get?_take hp

theorem writeWord_get?_in {l w : List Nat} {off j : Nat}
    (h : off + w.length ≤ l.length) (hj : j < w.length) :
    (writeWord l off w).get? (off + j) = w.get? j := by
  unfold writeWord
  have htl : (l.take off).length = off := by simp [List.length_take]; omega
  rw [List.get?_append_right (by omega)]
  rw [htl, Nat.add_sub_cancel_left]
  exact List.get?_append hj

theorem writeWord_get?_ge {l w : List Nat} {off pos : Nat}
    (h : off + w.length ≤ l.length) (hp : off + w.length ≤ pos) :
    (writeWord l off w).get? pos = l.get? pos := by
  unfold writeWord
  have htl : (l.take off).length = off := by simp [List.length_take]; omega
  rw [List.get?_append_right (by omega)]
  rw [List.get?_append_right (by omega)]
  rw [List.get?_drop]
  congr 1
  rw [htl]
  omega

theorem writeWord_get?_cases {l w : List Nat} {off pos v : Nat}
    (h : (writeWord l off w).get? pos = some v) :
    l.get? pos = some v ∨ v ∈ w := by
  unfold writeWord at h
  by_cases h1 : pos < (l.take off).length
  · rw [List.get?_append h1] at h
    left
    rw [← List.get?_take (by simp [List.length_take] at h1; omega : pos < off)]
    exact h
  · rw [List.get?_append_right (by omega)] at h
    by_cases h2 : pos - (l.take off).length < w.length
    · rw [List.get?_append h2] at h
      exact Or.inr (List.get?_mem h)
    · rw [List.get?_append_right (by omega)] at h
      rw [List.get?_drop] at h
      have hlt : off + w.length + (pos - (l.take off).length - w.length)
          < l.length := by
        by_contra hge
        rw [List.get?_eq_none.mpr (by omega)] at h
        exact absurd h (by simp)
      left
      rw [← h]
      congr 1
      simp only [List.length_take] at h1 h2 hlt ⊢
      omega

/-- Constants of `patch_gnustack.py`. -/
def ELF_MAGIC_BYTES : List Nat := [0x7f, 0x45, 0x4c, 0x46]
def PT_GNU_STACK : Nat := 0x6474E551
def PF_X : Nat := 0x1
def PF_W : Nat := 0x2
def PF_R : Nat := 0x4
def RWX_PERMISSIONS : Nat := PF_R ||| PF_W ||| PF_X
def RW_PERMISSIONS : Nat := PF_R ||| PF_W

/-- The program-header loop of `GnuStackPatcher.fix_executable_stack`:
entry `i` of `count` remaining; all reads come from the original buffer
`orig` (Python reads `elf` once), writes accumulate in `cur` (the on-disk
file); a failing read models the escaping `struct.error`, leaving the
file as written so far. -/
def fixLoop (orig : List Nat) (little : Bool) (flagsDelta phoff entsize : Nat) :
    Nat → Nat → List Nat → List Nat
  | _, 0, cur => cur
  | i, c + 1, cur =>
    match readU orig little (phoff + i * entsize) 4,
          readU orig little (phoff + i * entsize + flagsDelta) 4 with
    | some p_type, some p_flags =>
      fixLoop orig little flagsDelta phoff entsize (i + 1) c
        (if p_type = PT_GNU_STACK ∧
            p_flags &&& RWX_PERMISSIONS = RWX_PERMISSIONS then
          writeWord cur (phoff + i * entsize + flagsDelta)
            (packU32 little RW_PERMISSIONS)
        else cur)
    | _, _ => cur

/-- Embedding of `GnuStackPatcher.fix_executable_stack`: magic check,
class/endianness bytes, the three program-header-table fields, then the
entry loop.  Every abort path leaves the file unchanged because no write
precedes the loop. -/
def fix_executable_stack (elf : List Nat) : List Nat :=
  if elf.take 4 ≠ ELF_MAGIC_BYTES then elf
  else
    match byteAt elf 4, byteAt elf 5 with
    | some cls, some dat =>
      match readU elf (dat == 1) (if cls == 2 then 32 else 28)
              (if cls == 2 then 8 else 4),
            readU elf (dat == 1) (if cls == 2 then 56 else 44) 2,
            readU elf (dat == 1) (if cls == 2 then 54 else 42) 2 with
      | some e_phoff, some e_phnum, some e_phentsize =>
        fixLoop elf (dat == 1) (if cls == 2 then 4 else 24) e_phoff e_phentsize
          0 e_phnum elf
      | _, _, _ => elf
    | _, _ => elf

/-- Both `struct.unpack` reads of program-header entry `j` succeed. -/
def entryReadsOk (orig : List Nat) (little : Bool)
    (flagsDelta phoff entsize j : Nat) : Bool :=
  (readU orig little (phoff + j * entsize) 4).isSome &&
    (readU orig little (phoff + j * entsize + flagsDelta) 4).isSome

/-- Entry `j` is a `PT_GNU_STACK` entry whose flags word has read, write
and execute simultaneously set — the condition under which the source
patches the flags word. -/
def entryQualifies (orig : List Nat) (little : Bool)
    (flagsDelta phoff entsize j : Nat) : Bool :=
  match readU orig little (phoff + j * entsize) 4,
        readU orig little (phoff + j * entsize + flagsDelta) 4 with
  | some t, some fl =>
    decide (t = PT_GNU_STACK) &&
      decide (fl &&& RWX_PERMISSIONS = RWX_PERMISSIONS)
  | _, _ => false

/-- The header fields `fix_executable_stack` reads before its loop, with
the values it obtains: magic matches, class and endianness bytes exist,
and the three program-header-table fields parse to the given values. -/
def parsedHeader (elf : List Nat) (cls dat phoff phnum entsize : Nat) : Prop :=
  elf.take 4 = ELF_MAGIC_BYTES ∧
  byteAt elf 4 = some cls ∧ byteAt elf 5 = some dat ∧
  readU elf (dat == 1) (if cls == 2 then 32 else 28)
      (if cls == 2 then 8 else 4) = some phoff ∧
  readU elf (dat == 1) (if cls == 2 then 56 else 44) 2 = some phnum ∧
  readU elf (dat == 1) (if cls == 2 then 54 else 42) 2 = some entsize

theorem fix_eq_loop {elf : List Nat} {cls dat phoff phnum entsize : Nat}
    (hp : parsedHeader elf cls dat phoff phnum entsize) :
    fix_executable_stack elf
      = fixLoop elf (dat == 1) (if cls == 2 then 4 else 24) phoff entsize
          0 phnum elf := by
  obtain ⟨hm, h4, h5, ho, hn, hs⟩ := hp
  simp only [beq_iff_eq] at ho hn hs
  simp [fix_executable_stack, hm, h4, h5, ho, hn, hs]

theorem packU32_length (little : Bool) (v : Nat) :
    (packU32 little v).length = 4 := by
  cases little <;> simp [packU32]

theorem packRW_mem {little : Bool} {v : Nat}
    (h : v ∈ packU32 little RW_PERMISSIONS) : v = 0 ∨ v = 6 := by
  cases little <;> simp [packU32, RW_PERMISSIONS, PF_R, PF_W] at h <;> tauto

theorem fixLoop_length {orig : List Nat} {little : Bool}
    {flagsDelta phoff entsize : Nat} :
    ∀ (count i : Nat) (cur : List Nat), cur.length = orig.length →
      (fixLoop orig little flagsDelta phoff entsize i count cur).length
        = orig.length := by
  intro count
  induction count with
  | zero => intro i cur h; exact h
  | succ c ih =>
    intro i cur h
    simp only [fixLoop]
    rcases h1 : readU orig little (phoff + i * entsize) 4 with _ | t
    · exact h
    rcases h2 : readU orig little (phoff + i * entsize + flagsDelta) 4 with _ | fl
    · exact h
    dsimp only
    by_cases hq : t = PT_GNU_STACK ∧ fl &&& RWX_PERMISSIONS = RWX_PERMISSIONS
    · rw [if_pos hq]
      apply ih
      rw [writeWord_length]
      · exact h
      · rw [packU32_length, h]
        exact readU_bound h2
    · rw [if_neg hq]
      exact ih (i + 1) cur h

theorem fixLoop_get?_cases {orig : List Nat} {little : Bool}
    {flagsDelta phoff entsize : Nat} :
    ∀ (count i : Nat) (cur : List Nat) (pos v : Nat),
      (fixLoop orig little flagsDelta phoff entsize i count cur).get? pos
        = some v →
      cur.get? pos = some v ∨ v = 0 ∨ v = 6 := by
  intro count
  induction count with
  | zero => intro i cur pos v h; exact Or.inl h
  | succ c ih =>
    intro i cur pos v h
    simp only [fixLoop] at h
    rcases h1 : readU orig little (phoff + i * entsize) 4 with _ | t
    · rw [h1] at h; exact Or.inl h
    rcases h2 : readU orig little (phoff + i * entsize + flagsDelta) 4 with _ | fl
    · rw [h1, h2] at h; exact Or.inl h
    rw [h1, h2] at h
    dsimp only at h
    by_cases hq : t = PT_GNU_STACK ∧ fl &&& RWX_PERMISSIONS = RWX_PERMISSIONS
    · rw [if_pos hq] at h
      rcases ih (i + 1)
          (writeWord cur (phoff + i * entsize + flagsDelta)
            (packU32 little RW_PERMISSIONS)) pos v h with hcur | hv
      · rcases writeWord_get?_cases hcur with h3 | h3
        · exact Or.inl h3
        · exact Or.inr (packRW_mem h3)
      · exact Or.inr hv
    · rw [if_neg hq] at h
      exact ih (i + 1) cur pos v h

theorem fixLoop_no_patch {orig : List Nat} {little : Bool}
    {flagsDelta phoff entsize : Nat} :
    ∀ (count i : Nat) (cur : List Nat),
      (∀ j, j < count →
        (∀ j', j' ≤ j →
          entryReadsOk orig little flagsDelta phoff entsize (i + j') = true) →
        entryQualifies orig little flagsDelta phoff entsize (i + j) = false) →
      fixLoop orig little flagsDelta phoff entsize i count cur = cur := by
  intro count
  induction count with
  | zero => intro i cur _; rfl
  | succ c ih =>
    intro i cur h
    simp only [fixLoop]
    rcases h1 : readU orig little (phoff + i * entsize) 4 with _ | t
    · rfl
    rcases h2 : readU orig little (phoff + i * entsize + flagsDelta) 4 with _ | fl
    · rfl
    dsimp only
    have hro : entryReadsOk orig little flagsDelta phoff entsize i = true := by
      simp [entryReadsOk, h1, h2]
    have hq0 : entryQualifies orig little flagsDelta phoff entsize (i + 0) = false :=
      h 0 (Nat.succ_pos c) (fun j' hj' => by
        have hz : j' = 0 := Nat.le_zero.mp hj'
        subst hz
        simpa using hro)
    have hq : ¬(t = PT_GNU_STACK ∧ fl &&& RWX_PERMISSIONS = RWX_PERMISSIONS) := by
      intro hc
      simp [entryQualifies, h1, h2, hc.1, hc.2] at hq0
    rw [if_neg hq]
    apply ih (i + 1) cur
    intro j hj hread
    have hidx : i + 1 + j = i + (j + 1) := by omega
    rw [hidx]
    apply h (j + 1) (by omega)
    intro j' hj'
    cases j' with
    | zero => simpa using hro
    | succ k =>
      have hidx2 : i + (k + 1) = i + 1 + k := by omega
      rw [hidx2]
      exact hread k (by omega)

theorem fixLoop_unique_patch {orig : List Nat} {little : Bool}
    {flagsDelta phoff entsize : Nat} :
    ∀ (count i j0 : Nat) (cur : List Nat),
      j0 < count →
      (∀ j, j < count →
        entryReadsOk orig little flagsDelta phoff entsize (i + j) = true) →
      (∀ j, j < count →
        (entryQualifies orig little flagsDelta phoff entsize (i + j) = true ↔ j = j0)) →
      fixLoop orig little flagsDelta phoff entsize i count cur
        = writeWord cur (phoff + (i + j0) * entsize + flagsDelta)
            (packU32 little RW_PERMISSIONS) := by
  intro count
  induction count with
  | zero => intro i j0 cur h; omega
  | succ c ih =>
    intro i j0 cur hj0 hreads huniq
    have hro : entryReadsOk orig little flagsDelta phoff entsize i = true := by
      simpa using hreads 0 (by omega)
    simp only [fixLoop]
    rcases h1 : readU orig little (phoff + i * entsize) 4 with _ | t
    · exfalso; simp [entryReadsOk, h1] at hro
    rcases h2 : readU orig little (phoff + i * entsize + flagsDelta) 4 with _ | fl
    · exfalso; simp [entryReadsOk, h1, h2] at hro
    dsimp only
    cases j0 with
    | zero =>
      have hq : entryQualifies orig little flagsDelta phoff entsize (i + 0) = true :=
        (huniq 0 (by omega)).mpr rfl
      have hcond : t = PT_GNU_STACK ∧ fl &&& RWX_PERMISSIONS = RWX_PERMISSIONS := by
        simp [entryQualifies, h1, h2] at hq
        exact hq
      rw [if_pos hcond]
      have hrest :
          fixLoop orig little flagsDelta phoff entsize (i + 1) c
            (writeWord cur (phoff + i * entsize + flagsDelta)
              (packU32 little RW_PERMISSIONS))
          = writeWord cur (phoff + i * entsize + flagsDelta)
              (packU32 little RW_PERMISSIONS) := by
        apply fixLoop_no_patch c (i + 1)
        intro j hj _
        have hidx : i + 1 + j = i + (j + 1) := by omega
        rw [hidx]
        cases hqv : entryQualifies orig little flagsDelta phoff entsize (i + (j + 1))
        · rfl
        · exact absurd ((huniq (j + 1) (by omega)).mp hqv) (by omega)
      rw [hrest]
      have hidx : i + 0 = i := by omega
      rw [hidx]
    | succ k =>
      have hqf : entryQualifies orig little flagsDelta phoff entsize (i + 0) = false := by
        cases hqv : entryQualifies orig little flagsDelta phoff entsize (i + 0)
        · rfl
        · have := (huniq 0 (by omega)).mp hqv
          omega
      have hcond : ¬(t = PT_GNU_STACK ∧ fl &&& RWX_PERMISSIONS = RWX_PERMISSIONS) := by
        intro hc
        simp [entryQualifies, h1, h2, hc.1, hc.2] at hqf
      rw [if_neg hcond]
      have hout := ih (i + 1) k cur (by omega)
        (fun j hj => by
          have hidx : i + 1 + j = i + (j + 1) := by omega
          rw [hidx]
          exact hreads (j + 1) (by omega))
        (fun j hj => by
          have hidx : i + 1 + j = i + (j + 1) := by omega
          rw [hidx]
          constructor
          · intro hq
            have := (huniq (j + 1) (by omega)).mp hq
            omega
          · intro hq
            rw [hq]
            exact (huniq (k + 1) (by omega)).mpr rfl)
      rw [hout]
      have hidx : i + 1 + k = i + (k + 1) := by omega
      rw [hidx]

/-- Position of the byte that decides `flags &&& 7` inside the 4-byte
flags word of entry `j` (least significant byte of the word). -/
def lowPos (little : Bool) (flagsDelta phoff entsize j : Nat) : Nat :=
  phoff + j * entsize + flagsDelta + (if little then 0 else 3)

theorem packRW_get?_low (little : Bool) :
    (packU32 little RW_PERMISSIONS).get? (if little then 0 else 3) = some 6 := by
  cases little <;> decide

theorem fixLoop_wrote_low {orig : List Nat} {little : Bool}
    {flagsDelta phoff entsize : Nat} :
    ∀ (count i j0 : Nat) (cur : List Nat),
      j0 < count →
      cur.length = orig.length →
      (∀ j', j' ≤ j0 →
        entryReadsOk orig little flagsDelta phoff entsize (i + j') = true) →
      entryQualifies orig little flagsDelta phoff entsize (i + j0) = true →
      ((fixLoop orig little flagsDelta phoff entsize i count cur).get?
          (lowPos little flagsDelta phoff entsize (i + j0)) = some 0 ∨
        (fixLoop orig little flagsDelta phoff entsize i count cur).get?
          (lowPos little flagsDelta phoff entsize (i + j0)) = some 6) := by
  intro count
  induction count with
  | zero => intro i j0 cur h; omega
  | succ c ih =>
    intro i j0 cur hj0 hlen hreads hqual
    have hro : entryReadsOk orig little flagsDelta phoff entsize i = true := by
      simpa using hreads 0 (by omega)
    simp only [fixLoop]
    rcases h1 : readU orig little (phoff + i * entsize) 4 with _ | t
    · exfalso; simp [entryReadsOk, h1] at hro
    rcases h2 : readU orig little (phoff + i * entsize + flagsDelta) 4 with _ | fl
    · exfalso; simp [entryReadsOk, h1, h2] at hro
    dsimp only
    cases j0 with
    | zero =>
      have hcond : t = PT_GNU_STACK ∧ fl &&& RWX_PERMISSIONS = RWX_PERMISSIONS := by
        have hq := hqual
        simp [entryQualifies, h1, h2] at hq
        exact hq
      rw [if_pos hcond]
      have hb2 : phoff + i * entsize + flagsDelta + 4 ≤ orig.length := readU_bound h2
      have hb2' : phoff + i * entsize + flagsDelta + (packU32 little RW_PERMISSIONS).length
          ≤ cur.length := by
        rw [packU32_length, hlen]; exact hb2
      have hlow : (writeWord cur (phoff + i * entsize + flagsDelta)
            (packU32 little RW_PERMISSIONS)).get?
          (lowPos little flagsDelta phoff entsize (i + 0)) = some 6 := by
        have hidx : lowPos little flagsDelta phoff entsize (i + 0)
            = (phoff + i * entsize + flagsDelta) + (if little then 0 else 3) := by
          simp [lowPos]
        rw [hidx, writeWord_get?_in hb2'
          (by rw [packU32_length]; cases little <;> simp)]
        exact packRW_get?_low little
      have hwlen : (writeWord cur (phoff + i * entsize + flagsDelta)
          (packU32 little RW_PERMISSIONS)).length = orig.length := by
        rw [writeWord_length hb2', hlen]
      have hplt : lowPos little flagsDelta phoff entsize (i + 0) < orig.length := by
        simp only [lowPos]
        cases little <;> simp <;> omega
      have hflen : (fixLoop orig little flagsDelta phoff entsize (i + 1) c
          (writeWord cur (phoff + i * entsize + flagsDelta)
            (packU32 little RW_PERMISSIONS))).length = orig.length :=
        fixLoop_length c (i + 1) _ hwlen
      obtain ⟨v, hv⟩ : ∃ v, (fixLoop orig little flagsDelta phoff entsize (i + 1) c
          (writeWord cur (phoff + i * entsize + flagsDelta)
            (packU32 little RW_PERMISSIONS))).get?
          (lowPos little flagsDelta phoff entsize (i + 0)) = some v := by
    
        have hlt : lowPos little flagsDelta phoff entsize (i + 0)
            < (fixLoop orig little flagsDelta phoff entsize (i + 1) c
              (writeWord cur (phoff + i * entsize + flagsDelta)
                (packU32 little RW_PERMISSIONS))).length := by
          rw [hflen]; exact hplt
        exact ⟨_, List.get?_eq_get hlt⟩
      rcases fixLoop_get?_cases c (i + 1) _ _ _ hv with hcur | hz
      · rw [hlow] at hcur
        rw [hv]
        right
        simpa using hcur.symm
      · rw [hv]
        rcases hz with h0 | h6
        · left; rw [h0]
        · right; rw [h6]
    | succ k =>
      have hshift : ∀ j', j' ≤ k →
          entryReadsOk orig little flagsDelta phoff entsize (i + 1 + j') = true := by
        intro j' hj'
        have hidx : i + 1 + j' = i + (j' + 1) := by omega
        rw [hidx]
        exact hreads (j' + 1) (by omega)
      have hq' : entryQualifies orig little flagsDelta phoff entsize (i + 1 + k) = true := by
        have hidx : i + 1 + k = i + (k + 1) := by omega
        rw [hidx]
        exact hqual
      have hgoal : ∀ cur2 : List Nat, cur2.length = orig.length →
          ((fixLoop orig little flagsDelta phoff entsize (i + 1) c cur2).get?
              (lowPos little flagsDelta phoff entsize (i + (k + 1))) = some 0 ∨
            (fixLoop orig little flagsDelta phoff entsize (i + 1) c cur2).get?
              (lowPos little flagsDelta phoff entsize (i + (k + 1))) = some 6) := by
        intro cur2 hlen2
        have hidx : i + (k + 1) = i + 1 + k := by omega
        rw [hidx]
        exact ih (i + 1) k cur2 (by omega) hlen2 hshift hq'
      by_cases hcond : t = PT_GNU_STACK ∧ fl &&& RWX_PERMISSIONS = RWX_PERMISSIONS
      · rw [if_pos hcond]
        apply hgoal
        rw [writeWord_length]
        · exact hlen
        · rw [packU32_length, hlen]
          exact readU_bound h2
      · rw [if_neg hcond]
        exact hgoal cur hlen

theorem readU_isSome_iff {l : List Nat} {little : Bool} {off len : Nat} :
    (readU l little off len).isSome = true ↔ off + len ≤ l.length := by
  by_cases h : off + len ≤ l.length
  · simp [readU, readBytes, h]
  · simp [readU, readBytes, h]

theorem readU_isSome_eq (l : List Nat) (little : Bool) (off len : Nat) :
    (readU l little off len).isSome = decide (off + len ≤ l.length) := by
  by_cases h : off + len ≤ l.length <;> simp [readU, readBytes, h]

theorem entryReadsOk_congr_len {l1 l2 : List Nat} {little : Bool}
    {flagsDelta phoff entsize j : Nat} (h : l1.length = l2.length) :
    entryReadsOk l1 little flagsDelta phoff entsize j
      = entryReadsOk l2 little flagsDelta phoff entsize j := by
  simp only [entryReadsOk, readU_isSome_eq, h]

theorem readU4_low_mod8 {l : List Nat} {little : Bool} {off v : Nat}
    (h : readU l little off 4 = some v) :
    ∃ a, l.get? (off + (if little then 0 else 3)) = some a ∧ v % 8 = a % 8 := by
  have hb := readU_bound h
  obtain ⟨a, b, c, d, hw, hga, hgb, hgc, hgd⟩ := window4 hb
  rw [readU_eq hb, hw] at h
  cases little with
  | true =>
    simp only [if_true, Option.some.injEq] at h
    refine ⟨a, by simpa using hga, ?_⟩
    rw [← h, leVal_four]
    omega
  | false =>
    simp only [Bool.false_eq_true, if_false, Option.some.injEq] at h
    refine ⟨d, hgd, ?_⟩
    rw [← h, beVal_four]
    omega

theorem readU4_gnu_transfer {elf X1 : List Nat} {little : Bool} {off t2 : Nat}
    (hlen : X1.length = elf.length)
    (hcases : ∀ pos v, X1.get? pos = some v → elf.get? pos = some v ∨ v = 0 ∨ v = 6)
    (hbX1 : ∀ pos v, X1.get? pos = some v → v < 256)
    (hr2 : readU X1 little off 4 = some t2)
    (ht2 : t2 = PT_GNU_STACK) :
    readU elf little off 4 = some PT_GNU_STACK := by
  have hb2 := readU_bound hr2
  have hb1 : off + 4 ≤ elf.length := hlen ▸ hb2
  obtain ⟨a, b, c, d, hw, hga, hgb, hgc, hgd⟩ := window4 hb2
  rw [readU_eq hb2, hw] at hr2
  obtain ⟨a', b', c', d', hw', hga', hgb', hgc', hgd'⟩ := window4 hb1
  rw [readU_eq hb1, hw']
  have hba := hbX1 _ _ hga
  have hbb := hbX1 _ _ hgb
  have hbc := hbX1 _ _ hgc
  have hbd := hbX1 _ _ hgd
  subst ht2
  cases little with
  | true =>
    simp only [if_true, Option.some.injEq] at hr2 ⊢
    rw [leVal_four] at hr2
    simp only [PT_GNU_STACK] at hr2
    have hvals : a = 0x51 ∧ b = 0xE5 ∧ c = 0x74 ∧ d = 0x64 := by omega
    obtain ⟨rfl, rfl, rfl, rfl⟩ := hvals
    have hea := (hcases _ _ hga).resolve_right (by omega)
    have heb := (hcases _ _ hgb).resolve_right (by omega)
    have hec := (hcases _ _ hgc).resolve_right (by omega)
    have hed := (hcases _ _ hgd).resolve_right (by omega)
    have ha' : a' = 0x51 := by
      have := hga'.symm.trans hea
      simpa using this
    have hb' : b' = 0xE5 := by
      have := hgb'.symm.trans heb
      simpa using this
    have hc' : c' = 0x74 := by
      have := hgc'.symm.trans hec
      simpa using this
    have hd' : d' = 0x64 := by
      have := hgd'.symm.trans hed
      simpa using this
    rw [ha', hb', hc', hd', leVal_four]
    simp [PT_GNU_STACK]
  | false =>
    simp only [Bool.false_eq_true, if_false, Option.some.injEq] at hr2 ⊢
    rw [beVal_four] at hr2
    simp only [PT_GNU_STACK] at hr2
    have hvals : a = 0x64 ∧ b = 0x74 ∧ c = 0xE5 ∧ d = 0x51 := by omega
    obtain ⟨rfl, rfl, rfl, rfl⟩ := hvals
    have hea := (hcases _ _ hga).resolve_right (by omega)
    have heb := (hcases _ _ hgb).resolve_right (by omega)
    have hec := (hcases _ _ hgc).resolve_right (by omega)
    have hed := (hcases _ _ hgd).resolve_right (by omega)
    have ha' : a' = 0x64 := by
      have := hga'.symm.trans hea
      simpa using this
    have hb' : b' = 0x74 := by
      have := hgb'.symm.trans heb
      simpa using this
    have hc' : c' = 0xE5 := by
      have := hgc'.symm.trans hec
      simpa using this
    have hd' : d' = 0x51 := by
      have := hgd'.symm.trans hed
      simpa using this
    rw [ha', hb', hc', hd', beVal_four]
    simp [PT_GNU_STACK]

theorem fixLoop_twice_id (elf : List Nat) (little : Bool)
    (delta phoff phnum entsize : Nat)
    (hbytes : ∀ b ∈ elf, b < 256) :
    fixLoop (fixLoop elf little delta phoff entsize 0 phnum elf)
        little delta phoff entsize 0 phnum
        (fixLoop elf little delta phoff entsize 0 phnum elf)
      = fixLoop elf little delta phoff entsize 0 phnum elf := by
  set X1 := fixLoop elf little delta phoff entsize 0 phnum elf with hX1
  have hlen : X1.length = elf.length := by
    rw [hX1]
    exact fixLoop_length phnum 0 elf rfl
  have hcases : ∀ pos v, X1.get? pos = some v →
      elf.get? pos = some v ∨ v = 0 ∨ v = 6 := by
    intro pos v hv
    rw [hX1] at hv
    exact fixLoop_get?_cases phnum 0 elf pos v hv
  have hbX1 : ∀ pos v, X1.get? pos = some v → v < 256 := by
    intro pos v hv
    rcases hcases pos v hv with hc | hz
    · exact hbytes v (List.get?_mem hc)
    · omega
  apply fixLoop_no_patch phnum 0 X1
  intro j hj hreads2
  rw [Nat.zero_add]
  cases hqv : entryQualifies X1 little delta phoff entsize j with
  | false => rfl
  | true =>
  exfalso
  unfold entryQualifies at hqv
  rcases hr1 : readU X1 little (phoff + j * entsize) 4 with _ | t2
  · rw [hr1] at hqv; simp at hqv
  rcases hr2 : readU X1 little (phoff + j * entsize + delta) 4 with _ | fl2
  · rw [hr1, hr2] at hqv; simp at hqv
  rw [hr1, hr2] at hqv
  dsimp only at hqv
  simp only [Bool.and_eq_true, decide_eq_true_eq] at hqv
  obtain ⟨ht2, hfl2⟩ := hqv
  have ht1 : readU elf little (phoff + j * entsize) 4 = some PT_GNU_STACK :=
    readU4_gnu_transfer hlen hcases hbX1 hr1 ht2
  obtain ⟨a0, hga0, hmod⟩ := readU4_low_mod8 hr2
  have ha0m : a0 % 8 = 7 := by
    have h7 : fl2 % 8 = 7 := by
      have hx := hfl2
      rw [show RWX_PERMISSIONS = 7 from rfl, land_seven] at hx
      exact hx
    omega
  have hE : elf.get? (phoff + j * entsize + delta + (if little then 0 else 3))
      = some a0 :=
    (hcases _ _ hga0).resolve_right (by omega)
  have hbfl : phoff + j * entsize + delta + 4 ≤ elf.length := by
    have := readU_bound hr2
    omega
  obtain ⟨fl1, hfl1⟩ : ∃ fl1, readU elf little (phoff + j * entsize + delta) 4
      = some fl1 := by
    rw [readU_eq hbfl]
    exact ⟨_, rfl⟩
  have hfl1p : fl1 &&& RWX_PERMISSIONS = RWX_PERMISSIONS := by
    obtain ⟨a0', hga0', hmod'⟩ := readU4_low_mod8 hfl1
    have ha0e : a0' = a0 := by
      have := hga0'.symm.trans hE
      simpa using this
    rw [show RWX_PERMISSIONS = 7 from rfl, land_seven]
    omega
  have hqual1 : entryQualifies elf little delta phoff entsize (0 + j) = true := by
    rw [Nat.zero_add]
    simp [entryQualifies, ht1, hfl1, hfl1p]
  have hreads1 : ∀ j', j' ≤ j →
      entryReadsOk elf little delta phoff entsize (0 + j') = true := by
    intro j' hj'
    rw [entryReadsOk_congr_len hlen.symm]
    exact hreads2 j' hj'
  have hwrote := fixLoop_wrote_low phnum 0 j elf hj rfl hreads1 hqual1
  rw [Nat.zero_add] at hwrote
  rw [← hX1] at hwrote
  have hX1low : X1.get? (lowPos little delta phoff entsize j) = some a0 := by
    rw [show lowPos little delta phoff entsize j
      = phoff + j * entsize + delta + (if little then 0 else 3) from rfl]
    exact hga0
  rcases hwrote with h0 | h6
  · rw [hX1low] at h0
    simp at h0
    omega
  · rw [hX1low] at h6
    simp at h6
    omega

/-! ## Claim C3 -/

/-- C3 amended: `fix_executable_stack` is idempotent for every byte-valued
file whose first application leaves the header fields of the scan intact
(magic, class and endianness bytes, `e_phoff`, `e_phnum`, `e_phentsize`
parse identically before and after) — in particular for well-formed ELF
files whose program-header flags words do not overlap those header
fields.  The second application then finds every previously patched
entry already non-executable and writes nothing. -/
theorem fix_executable_stack_idem (elf : List Nat)
    (cls dat phoff phnum entsize : Nat)
    (hbytes : ∀ b ∈ elf, b < 256)
    (hp : parsedHeader elf cls dat phoff phnum entsize)
    (hp2 : parsedHeader (fix_executable_stack elf) cls dat phoff phnum entsize) :
    fix_executable_stack (fix_executable_stack elf) = fix_executable_stack elf := by
  rw [fix_eq_loop hp2, fix_eq_loop hp]
  exact fixLoop_twice_id elf (dat == 1) (if cls == 2 then 4 else 24)
    phoff phnum entsize hbytes

/-- Building a concrete byte file by successive in-place writes. -/
def patchBytes : List Nat → List (Nat × List Nat) → List Nat
  | l, [] => l
  | l, (off, w) :: rest => patchBytes (writeWord l off w) rest

/-- An adversarial 32-bit little-endian file whose single patched flags
word overlaps the `e_phentsize` header field: the first application
patches bytes 39..42 (changing `e_phentsize` from 0x01FF to 0x0100), so
the second application scans a shifted program-header grid and finds a
fresh RWX `PT_GNU_STACK` entry at offset 271, which it also patches. -/
def elf0 : List Nat :=
  patchBytes (List.replicate 554 0)
    [(0, [0x7f, 0x45, 0x4c, 0x46, 1, 1]),
     (15, [0x51, 0xE5, 0x74, 0x64]),
     (28, [0x0F]),
     (39, [0x07]),
     (42, [0xFF, 0x01]),
     (44, [0x02]),
     (271, [0x51, 0xE5, 0x74, 0x64]),
     (295, [0x07])]

set_option maxRecDepth 4000 in
/-- C3 counterexample: `fix_executable_stack` is not idempotent on every
input file.  On `elf0` the first application's flags-word write overlaps
the `e_phentsize` header field, so the second application scans a
different program-header grid and patches a further byte: the on-disk
bytes after two applications differ from those after one. -/
theorem fix_not_idempotent_cex :
    fix_executable_stack (fix_executable_stack elf0) ≠ fix_executable_stack elf0 := by
  decide

theorem packRW_true : packU32 true RW_PERMISSIONS = [6, 0, 0, 0] := by decide

theorem packRW_false : packU32 false RW_PERMISSIONS = [0, 0, 0, 6] := by decide

theorem readU_writeWord_rw {l : List Nat} {little : Bool} {off : Nat}
    (hb : off + 4 ≤ l.length) :
    readU (writeWord l off (packU32 little RW_PERMISSIONS)) little off 4
      = some RW_PERMISSIONS := by
  have hb' : off + (packU32 little RW_PERMISSIONS).length ≤ l.length := by
    rw [packU32_length]
    exact hb
  have hlen : (writeWord l off (packU32 little RW_PERMISSIONS)).length = l.length :=
    writeWord_length hb'
  have hb2 : off + 4 ≤ (writeWord l off (packU32 little RW_PERMISSIONS)).length := by
    rw [hlen]
    exact hb
  obtain ⟨a, b, c, d, hw, hga, hgb, hgc, hgd⟩ := window4 hb2
  rw [readU_eq hb2, hw]
  have hj : ∀ j, j < 4 →
      (writeWord l off (packU32 little RW_PERMISSIONS)).get? (off + j)
        = (packU32 little RW_PERMISSIONS).get? j := by
    intro j hjlt
    exact writeWord_get?_in hb' (by rw [packU32_length]; exact hjlt)
  have h0 := hj 0 (by omega)
  rw [Nat.add_zero] at h0
  have h1 := hj 1 (by omega)
  have h2 := hj 2 (by omega)
  have h3 := hj 3 (by omega)
  cases little with
  | true =>
    rw [packRW_true] at h0 h1 h2 h3
    have ha : a = 6 := by simpa using (hga.symm.trans h0)
    have hbv : b = 0 := by simpa using (hgb.symm.trans h1)
    have hc : c = 0 := by simpa using (hgc.symm.trans h2)
    have hd : d = 0 := by simpa using (hgd.symm.trans h3)
    rw [ha, hbv, hc, hd]
    decide
  | false =>
    rw [packRW_false] at h0 h1 h2 h3
    have ha : a = 0 := by simpa using (hga.symm.trans h0)
    have hbv : b = 0 := by simpa using (hgb.symm.trans h1)
    have hc : c = 0 := by simpa using (hgc.symm.trans h2)
    have hd : d = 6 := by simpa using (hgd.symm.trans h3)
    rw [ha, hbv, hc, hd]
    decide

/-! ## Claim C8 -/

/-- C8: the patch is surgical.  When the program-header scan reads
succeed and exactly one entry qualifies (RWX `PT_GNU_STACK`), the whole
operation equals one 4-byte in-place write of the read+write word at that
entry's flags offset: every byte outside the word is unchanged and the
word reads back as `RW_PERMISSIONS`.  And when every `PT_GNU_STACK`
entry's flags already exclude the execute bit, the file is left
byte-for-byte unchanged. -/
theorem gnu_stack_patch_surgical (elf : List Nat)
    (cls dat phoff phnum entsize j0 : Nat)
    (hp : parsedHeader elf cls dat phoff phnum entsize)
    (hreads : ∀ j, j < phnum →
      entryReadsOk elf (dat == 1) (if cls == 2 then 4 else 24) phoff entsize j
        = true)
    (hj0 : j0 < phnum)
    (huniq : ∀ j, j < phnum →
      (entryQualifies elf (dat == 1) (if cls == 2 then 4 else 24) phoff entsize j
          = true ↔ j = j0)) :
    fix_executable_stack elf
      = writeWord elf (phoff + j0 * entsize + (if cls == 2 then 4 else 24))
          (packU32 (dat == 1) RW_PERMISSIONS) ∧
    (∀ pos, pos < phoff + j0 * entsize + (if cls == 2 then 4 else 24) ∨
        phoff + j0 * entsize + (if cls == 2 then 4 else 24) + 4 ≤ pos →
      (fix_executable_stack elf).get? pos = elf.get? pos) ∧
    readU (fix_executable_stack elf) (dat == 1)
        (phoff + j0 * entsize + (if cls == 2 then 4 else 24)) 4
      = some RW_PERMISSIONS ∧
    (∀ (elf2 : List Nat) (cls2 dat2 phoff2 phnum2 entsize2 : Nat),
      parsedHeader elf2 cls2 dat2 phoff2 phnum2 entsize2 →
      (∀ j t fl, j < phnum2 →
        readU elf2 (dat2 == 1) (phoff2 + j * entsize2) 4 = some t →
        readU elf2 (dat2 == 1)
            (phoff2 + j * entsize2 + (if cls2 == 2 then 4 else 24)) 4 = some fl →
        t = PT_GNU_STACK → fl &&& PF_X = 0) →
      fix_executable_stack elf2 = elf2) := by
  have hweq : fix_executable_stack elf
      = writeWord elf (phoff + j0 * entsize + (if cls == 2 then 4 else 24))
          (packU32 (dat == 1) RW_PERMISSIONS) := by
    rw [fix_eq_loop hp]
    have := fixLoop_unique_patch phnum 0 j0 elf hj0
      (fun j hj => by rw [Nat.zero_add]; exact hreads j hj)
      (fun j hj => by rw [Nat.zero_add]; exact huniq j hj)
    rw [Nat.zero_add] at this
    exact this
  have hrq : entryReadsOk elf (dat == 1) (if cls == 2 then 4 else 24) phoff
      entsize j0 = true := hreads j0 hj0
  have hbfl : phoff + j0 * entsize + (if cls == 2 then 4 else 24) + 4
      ≤ elf.length := by
    simp only [entryReadsOk, Bool.and_eq_true, readU_isSome_iff] at hrq
    exact hrq.2
  have hbfl' : phoff + j0 * entsize + (if cls == 2 then 4 else 24) +
      (packU32 (dat == 1) RW_PERMISSIONS).length ≤ elf.length := by
    rw [packU32_length]
    exact hbfl
  refine ⟨hweq, ?_, ?_, ?_⟩
  · intro pos hpos
    rw [hweq]
    rcases hpos with hlt | hge
    · exact writeWord_get?_lt hbfl' hlt
    · exact writeWord_get?_ge hbfl' (by rw [packU32_length]; exact hge)
  · rw [hweq]
    exact readU_writeWord_rw hbfl
  · intro elf2 cls2 dat2 phoff2 phnum2 entsize2 hp2 hnox
    rw [fix_eq_loop hp2]
    apply fixLoop_no_patch phnum2 0 elf2
    intro j hj _
    rw [Nat.zero_add]
    cases hqv : entryQualifies elf2 (dat2 == 1) (if cls2 == 2 then 4 else 24)
        phoff2 entsize2 j with
    | false => rfl
    | true =>
      exfalso
      unfold entryQualifies at hqv
      rcases h1 : readU elf2 (dat2 == 1) (phoff2 + j * entsize2) 4 with _ | t
      · rw [h1] at hqv; simp at hqv
      rcases h2 : readU elf2 (dat2 == 1)
          (phoff2 + j * entsize2 + (if cls2 == 2 then 4 else 24)) 4 with _ | fl
      · rw [h1, h2] at hqv; simp at hqv
      rw [h1, h2] at hqv
      dsimp only at hqv
      simp only [Bool.and_eq_true, decide_eq_true_eq] at hqv
      have hx := hnox j t fl hj h1 h2 hqv.1
      have h7 : fl % 8 = 7 := by
        have := hqv.2
        rw [show RWX_PERMISSIONS = 7 from rfl, land_seven] at this
        exact this
      have h1m : fl &&& PF_X = fl % 2 := by
        rw [show PF_X = 1 from rfl]
        exact Nat.and_pow_two_sub_one_eq_mod fl 1
      rw [h1m] at hx
      omega

/-! ## Claim C10 -/

/-- C10: for a file with a single program header, the file is mutated
precisely when the entry is `PT_GNU_STACK` and its flags have read,
write and execute all set (`flags &&& 0x7 = 0x7`); in particular a
GNU_STACK entry with execute but without write leaves the file
byte-for-byte unchanged. -/
theorem gnu_stack_threshold (elf : List Nat) (cls dat phoff entsize t fl : Nat)
    (hp : parsedHeader elf cls dat phoff 1 entsize)
    (ht : readU elf (dat == 1) phoff 4 = some t)
    (hf : readU elf (dat == 1) (phoff + (if cls == 2 then 4 else 24)) 4 = some fl) :
    fix_executable_stack elf ≠ elf ↔
      (t = PT_GNU_STACK ∧ fl &&& RWX_PERMISSIONS = RWX_PERMISSIONS) := by
  have hq0 : entryQualifies elf (dat == 1) (if cls == 2 then 4 else 24) phoff
      entsize 0
      = (decide (t = PT_GNU_STACK) &&
          decide (fl &&& RWX_PERMISSIONS = RWX_PERMISSIONS)) := by
    unfold entryQualifies
    rw [Nat.zero_mul, Nat.add_zero, ht, hf]
  constructor
  · intro hne
    by_contra hq
    apply hne
    rw [fix_eq_loop hp]
    apply fixLoop_no_patch 1 0 elf
    intro j hj _
    have hj0 : j = 0 := by omega
    subst hj0
    rw [Nat.add_zero, hq0]
    by_cases hA : t = PT_GNU_STACK
    · by_cases hB : fl &&& RWX_PERMISSIONS = RWX_PERMISSIONS
      · exact absurd ⟨hA, hB⟩ hq
      · simp [hB]
    · simp [hA]
  · rintro ⟨htg, hflg⟩
    rw [fix_eq_loop hp]
    have hw : fixLoop elf (dat == 1) (if cls == 2 then 4 else 24) phoff entsize
        0 1 elf
        = writeWord elf (phoff + (if cls == 2 then 4 else 24))
            (packU32 (dat == 1) RW_PERMISSIONS) := by
      have hu := fixLoop_unique_patch 1 0 0 elf (by omega)
        (fun j hj => by
          have hj0 : j = 0 := by omega
          subst hj0
          rw [Nat.add_zero]
          unfold entryReadsOk
          rw [Nat.zero_mul, Nat.add_zero, ht, hf]
          rfl)
        (fun j hj => by
          have hj0 : j = 0 := by omega
          subst hj0
          rw [Nat.add_zero, hq0]
          simp [htg, hflg])
      simpa using hu
    rw [hw]
    intro habs
    obtain ⟨a0, hga0, hmod⟩ := readU4_low_mod8 hf
    have ha0 : a0 % 8 = 7 := by
      have h7 : fl % 8 = 7 := by
        rw [show RWX_PERMISSIONS = 7 from rfl, land_seven] at hflg
        exact hflg
      omega
    have hb := readU_bound hf
    have hb' : (phoff + (if cls == 2 then 4 else 24)) +
        (packU32 (dat == 1) RW_PERMISSIONS).length ≤ elf.length := by
      rw [packU32_length]
      exact hb
    have hlow : (writeWord elf (phoff + (if cls == 2 then 4 else 24))
          (packU32 (dat == 1) RW_PERMISSIONS)).get?
        ((phoff + (if cls == 2 then 4 else 24)) +
          (if (dat == 1) then 0 else 3)) = some 6 := by
      rw [writeWord_get?_in hb'
        (by rw [packU32_length]; cases (dat == 1) <;> simp)]
      exact packRW_get?_low (dat == 1)
    rw [habs] at hlow
    have ha6 : a0 = 6 := by
      have := hga0.symm.trans hlow
      simpa using this
    omega

/-- A well-formed 64-bit little-endian file with one program header: an
RWX `PT_GNU_STACK` entry at offset 64 with flags at offset 68. -/
def sampleElfRWX : List Nat :=
  patchBytes (List.replicate 120 0)
    [(0, [0x7f, 0x45, 0x4c, 0x46, 2, 1]),
     (32, [0x40]),
     (54, [0x38]),
     (56, [0x01]),
     (64, [0x51, 0xE5, 0x74, 0x64]),
     (68, [0x07])]

/-- The same file with read+execute (but not write) `GNU_STACK` flags. -/
def sampleElfRX : List Nat :=
  patchBytes (List.replicate 120 0)
    [(0, [0x7f, 0x45, 0x4c, 0x46, 2, 1]),
     (32, [0x40]),
     (54, [0x38]),
     (56, [0x01]),
     (64, [0x51, 0xE5, 0x74, 0x64]),
     (68, [0x05])]

set_option maxRecDepth 8000 in
/-- Witness for C8 on the concrete RWX sample file. -/
theorem gnu_stack_patch_surgical_witness :
    readU (fix_executable_stack sampleElfRWX) true 68 4 = some RW_PERMISSIONS :=
  (gnu_stack_patch_surgical sampleElfRWX 2 1 64 1 56 0
    (by unfold parsedHeader; decide) (by decide)
    (by decide) (by decide)).2.2.1

set_option maxRecDepth 8000 in
/-- Witness for C10 on the concrete read+execute sample file. -/
theorem gnu_stack_threshold_witness :
    fix_executable_stack sampleElfRX = sampleElfRX := by
  have h := gnu_stack_threshold sampleElfRX 2 1 64 56 0x6474E551 5
    (by unfold parsedHeader; decide) (by decide) (by decide)
  by_contra hne
  exact absurd (h.mp hne).2 (by decide)

set_option maxRecDepth 8000 in
/-- Witness for C3 (amended) on the concrete RWX sample file. -/
theorem fix_idem_witness :
    fix_executable_stack (fix_executable_stack sampleElfRWX)
      = fix_executable_stack sampleElfRWX :=
  fix_executable_stack_idem sampleElfRWX 2 1 64 1 56 (by decide)
    (by unfold parsedHeader; decide)
    (by unfold parsedHeader; decide)
